import Mathlib

/-!
Verification development for the modelo-720 declaration generator.

The program consists of a fixed-width record codec (`modelo.rs`) and a
portfolio reconciliation algorithm (`main.rs`).  Its numeric type is
`rust_decimal::Decimal`, a signed decimal with a 96-bit mantissa and scale
up to 28.  We model `Decimal` as the exact rationals `ℚ`:

* `rust_decimal` normalises negative zero when constructing values
  (`Decimal::from_parts` clears the sign flag when the mantissa is zero),
  so the sign of every constructed value agrees with the sign of its
  rational value;
* all quantities appearing in a declaration fit well inside the 96-bit
  mantissa, so mantissa overflow is not modelled;
* explicit machine-integer conversion sites (`to_i64`) are modelled with
  their `i64` range checks: an `unwrap` on the result is a panic (`none`),
  while a bare `to_i64()` assignment keeps the `Option`;
* Rust's byte-level string operations (`str::len`, `split_at`, byte
  slices) are modelled at UTF-8 byte granularity, including their
  char-boundary panics.
-/

/-- `round_dp_with_strategy(0, MidpointAwayFromZero)` followed by integer
extraction: rounds a rational to the nearest integer, ties away from zero. -/
def roundHalfAwayFromZero (q : ℚ) : ℤ :=
  if 0 ≤ q then ⌊q + 1/2⌋ else -⌊-q + 1/2⌋

/-- `round_dp_with_strategy(2, MidpointAwayFromZero)`: rounds a rational to
two decimal places, ties away from zero. -/
def roundDp2 (q : ℚ) : ℚ := (roundHalfAwayFromZero (q * 100) : ℚ) / 100

/-- Decimal rendering of a natural number, most significant digit first,
with explicit fuel (first argument) so that the kernel can evaluate it.
Models the decimal `Display` of a non-negative Rust integer. -/
def natCharsGo : ℕ → ℕ → List Char
  | 0, _ => []
  | fuel+1, n =>
    if n < 10 then [Nat.digitChar n]
    else natCharsGo fuel (n / 10) ++ [Nat.digitChar (n % 10)]

/-- Decimal rendering of a natural number, e.g. `natChars 105 = ['1','0','5']`. -/
def natChars (n : ℕ) : List Char := natCharsGo (n + 1) n

/-- Left-pad a digit string with `'0'` up to a minimum width `w`; models the
Rust format specifier `{number:0>w}` (which never truncates). -/
def padLeftZeros (w : ℕ) (ds : List Char) : List Char :=
  List.replicate (w - ds.length) '0' ++ ds

/-- Most-significant-first accumulation of the numeric value of a digit
string, starting from `m`. -/
def charsVal (m : ℕ) (cs : List Char) : ℕ :=
  cs.foldl (fun a c => 10 * a + (c.toNat - 48)) m

/-- Rust `str::len`: the number of UTF-8 bytes of a string. -/
def strByteLen (s : String) : ℕ := (s.data.map Char.utf8Size).sum

/-- Rust byte slice `&s[..n]`: returns the characters occupying the first
`n` bytes when `n` is within the string and falls on a character boundary,
and `none` (a panic in Rust) otherwise. -/
def utf8Take : ℕ → List Char → Option (List Char)
  | 0, _ => some []
  | _+1, [] => none
  | n+1, c :: cs =>
    if c.utf8Size ≤ n+1 then (utf8Take (n+1 - c.utf8Size) cs).map (c :: ·)
    else none

/-- The `i64` minimum. -/
def i64Min : ℤ := -(2 ^ 63)

/-- The `i64` maximum. -/
def i64Max : ℤ := 2 ^ 63 - 1

/-- `rust_decimal`'s `ToPrimitive::to_i64`: truncates toward zero and
returns `none` outside the `i64` range. -/
def Decimal.toI64 (q : ℚ) : Option ℤ :=
  let t : ℤ := q.num.tdiv (q.den : ℤ)
  if i64Min ≤ t ∧ t ≤ i64Max then some t else none

/-- `to_i64` applied to an already-integral (rounded) `Decimal`: just the
`i64` range check. -/
def Int.toI64 (z : ℤ) : Option ℤ :=
  if i64Min ≤ z ∧ z ≤ i64Max then some z else none

/-- Modelled from `rust_decimal`'s `FromStr` parser, state-machine style:
`seenDigit` records whether a digit has occurred, `seenDot` whether the
decimal point has occurred, `mant`/`scale` the mantissa accumulated so far
and the number of fractional digits.  Accepts digits, a single `'.'` and
`'_'` separators; any other character is an error.  (The 96-bit mantissa
overflow error is not modelled; the fixed-width fields this program parses
are at most 18 characters, far below 29 digits.) -/
def parseDecimalAux : List Char → Bool → Bool → ℕ → ℕ → Option ℚ
  | [], seenDigit, _, mant, scale =>
    if seenDigit then some ((mant : ℚ) / (10 : ℚ) ^ scale) else none
  | c :: cs, seenDigit, seenDot, mant, scale =>
    if c.isDigit then
      parseDecimalAux cs true seenDot (10 * mant + (c.toNat - 48))
        (if seenDot then scale + 1 else scale)
    else if c = '.' then
      if seenDot then none else parseDecimalAux cs seenDigit true mant scale
    else if c = '_' then
      parseDecimalAux cs seenDigit seenDot mant scale
    else none

/-- `rust_decimal`'s `Decimal::from_str` on a character list: an optional
leading sign followed by a decimal numeral. -/
def Decimal.fromStrChars : List Char → Option ℚ
  | [] => none
  | c :: rest =>
    if c = '+' then parseDecimalAux rest false false 0 0
    else if c = '-' then (parseDecimalAux rest false false 0 0).map (fun q => -q)
    else parseDecimalAux (c :: rest) false false 0 0

/-- `Decimal::from_str` on a string. -/
def Decimal.fromStr (s : String) : Option ℚ := Decimal.fromStrChars s.data

namespace Modelo

/-- `modelo.rs` `Modelo720Number::rounded_to_cents`. -/
def Modelo720Number.roundedToCents (q : ℚ) : ℚ := roundDp2 q

/-- `modelo.rs` `Serialize for Modelo720Number<N>`: round to cents, render a
sign character (`'N'` when the value is negative, space otherwise), then the
absolute value in cents as an `i64` (the `unwrap` panic is `none`), zero
padded to at least `N - 1` characters. -/
def Modelo720Number.serialize (N : ℕ) (q : ℚ) : Option String :=
  let decimalCents := Modelo720Number.roundedToCents q
  let sign : Char := if decimalCents < 0 then 'N' else ' '
  (Decimal.toI64 (|decimalCents| * 100)).map fun number =>
    String.mk (sign :: padLeftZeros (N - 1) (natChars number.toNat))

/-- `modelo.rs` `Modelo720NumberVisitor::visit_str`: when the input is
exactly `N` bytes long, `v.split_at(1)` splits off the first byte as the
sign (any sign other than a space negates) — and panics (`none` here, via
`utf8Take 1`) when byte 1 is not a character boundary, i.e. when the first
character is multi-byte or the string is empty; otherwise the whole string
is parsed without a sign position.  The parsed number of cents is divided
by 100. -/
def Modelo720Number.visitStr (N : ℕ) (s : String) : Option ℚ :=
  let split : Option (List Char × List Char) :=
    if strByteLen s = N then
      (utf8Take 1 s.data).map fun sign => (sign, s.data.drop 1)
    else some ([' '], s.data)
  split.bind fun p =>
    (Decimal.fromStrChars p.2).map fun n =>
      (if p.1 = [' '] then n else -n) / 100

/-- `modelo.rs` `Modelo720Titularidad`. -/
inductive Modelo720Titularidad where
  | Titular
  | Representate
  | Autorizado
  | Beneficiario
  | Usufructuario
  | Tomador
  | ConPoderDisposicion
  | Otros (what : String)
deriving DecidableEq, Repr

/-- `chrono::NaiveDate`, modelled as a plain year/month/day triple (no date
arithmetic is performed by the program). -/
structure NaiveDate where
  year : ℤ
  month : ℕ
  day : ℕ
deriving DecidableEq, Repr

/-- `modelo.rs` `Modelo720Date`. -/
def Modelo720Date : Type := Option NaiveDate

instance : DecidableEq Modelo720Date := by unfold Modelo720Date; infer_instance

/-- `modelo.rs` `Registro1Modelo720` (the header record). -/
structure Registro1Modelo720 where
  tipo : ℤ
  modelo_declaracion : ℤ
  ejercicio : ℤ
  nif_declarante : String
  nombre : String
  tipo_soporte : Char
  telefono : ℤ
  nombre_persona_contacto : String
  id_declaracion : ℤ
  declaracion_complementaria : Option Char
  declaracion_sustitutiva : Option Char
  id_declaracion_anterior : Option ℤ
  numero_registros_tipo2 : ℕ
  suma_valoracion1 : ℚ
  suma_valoracion2 : ℚ
  blancos : String
deriving DecidableEq

/-- `modelo.rs` `Registro1Modelo720::new`. -/
def Registro1Modelo720.new (ejercicio : ℤ) (nif nombre : String) (telefono : ℤ) :
    Registro1Modelo720 where
  tipo := 1
  modelo_declaracion := 720
  ejercicio := ejercicio
  nif_declarante := nif
  nombre := nombre
  tipo_soporte := 'T'
  telefono := telefono
  nombre_persona_contacto := nombre
  id_declaracion := 7200000000000
  declaracion_complementaria := none
  declaracion_sustitutiva := none
  id_declaracion_anterior := none
  numero_registros_tipo2 := 0
  suma_valoracion1 := 0
  suma_valoracion2 := 0
  blancos := ""

/-- `modelo.rs` `Registro2Modelo720` (the detail record). -/
structure Registro2Modelo720 where
  tipo : ℤ
  modelo_declaracion : ℤ
  ejercicio : ℤ
  nif_declarante : String
  nif_declarado : String
  nif_representante_legal : Option String
  nombre : String
  tipo_titularidad : Modelo720Titularidad
  clave_tipo_bien : Option Char
  subclave_tipo_bien : Option ℤ
  tipo_derecho_real_sobre_inmueble : Option String
  codigo_pais : String
  clave_identificacion : Option ℤ
  identificacion_valores : Option String
  clave_identificacion_cuenta : Option Char
  codigo_bic : Option String
  codigo_cuenta : Option String
  identificacion_entidad : Option String
  nif_pais_residencia_fiscal : Option String
  nombre_via_publica_entidad : Option String
  complemento_entidad : Option String
  poblacion_entidad : Option String
  provincia_entidad : Option String
  codigo_postal_entidad : Option String
  codigo_pais_entidad : Option String
  fecha_incorporacion : Modelo720Date
  origen_bien_derecho : Option Char
  fecha_extincion : Modelo720Date
  valoracion1 : ℚ
  valoracion2 : ℚ
  clave_representacion_valores : Option Char
  numero_valores : Option ℚ
  clave_tipo_bien_inmueble : Option Char
  porcentaje : ℤ
  blancos : String
deriving DecidableEq

/-- `modelo.rs` `Registro2Modelo720::new`. -/
def Registro2Modelo720.new (ejercicio : ℤ) (nif nombre codigo_pais : String) :
    Registro2Modelo720 where
  tipo := 2
  modelo_declaracion := 720
  ejercicio := ejercicio
  nif_declarante := nif
  nif_declarado := nif
  nif_representante_legal := none
  nombre := nombre
  tipo_titularidad := .Titular
  clave_tipo_bien := none
  subclave_tipo_bien := none
  tipo_derecho_real_sobre_inmueble := none
  codigo_pais := codigo_pais
  clave_identificacion := none
  identificacion_valores := none
  clave_identificacion_cuenta := none
  codigo_bic := none
  codigo_cuenta := none
  identificacion_entidad := none
  nif_pais_residencia_fiscal := none
  nombre_via_publica_entidad := none
  complemento_entidad := none
  poblacion_entidad := none
  provincia_entidad := none
  codigo_postal_entidad := none
  codigo_pais_entidad := none
  fecha_incorporacion := (none : Option NaiveDate)
  origen_bien_derecho := none
  fecha_extincion := (none : Option NaiveDate)
  valoracion1 := 0
  valoracion2 := 0
  clave_representacion_valores := none
  numero_valores := none
  clave_tipo_bien_inmueble := none
  porcentaje := 10000
  blancos := ""

/-- `modelo.rs` `impl Sum for Modelo720Number`: fold `+=` starting from
`Decimal::ZERO`. -/
def Modelo720Number.sum (l : List ℚ) : ℚ := l.foldl (· + ·) 0

/-- `modelo.rs` `Modelo720` (a whole declaration). -/
structure Modelo720 where
  header : Registro1Modelo720
  entries : List Registro2Modelo720
deriving DecidableEq

/-- `modelo.rs` `Modelo720::new`: build the header from scratch, then
overwrite the record count and both grand totals computed from `entries`. -/
def Modelo720.new (ejercicio : ℤ) (nif nombre : String) (telefono : ℤ)
    (entries : List Registro2Modelo720) : Modelo720 :=
  let header0 := Registro1Modelo720.new ejercicio nif nombre telefono
  { header := { header0 with
      numero_registros_tipo2 := entries.length
      suma_valoracion1 :=
        Modelo720Number.sum
          (entries.map fun x => Modelo720Number.roundedToCents x.valoracion1)
      suma_valoracion2 :=
        Modelo720Number.sum
          (entries.map fun x => Modelo720Number.roundedToCents x.valoracion2) }
    entries := entries }

/-- `modelo.rs` `Modelo720::concat` (also `main.rs` `concat_modelo_720`):
add the other header's record count and grand totals into this header and
append the other entry list. -/
def Modelo720.concat (a b : Modelo720) : Modelo720 :=
  { header := { a.header with
      numero_registros_tipo2 :=
        a.header.numero_registros_tipo2 + b.header.numero_registros_tipo2
      suma_valoracion1 := a.header.suma_valoracion1 + b.header.suma_valoracion1
      suma_valoracion2 := a.header.suma_valoracion2 + b.header.suma_valoracion2 }
    entries := a.entries ++ b.entries }

end Modelo

namespace Main

/-- `main.rs` `Modelo720Code`. -/
structure Modelo720Code where
  code : Char
  subcode : ℤ
deriving DecidableEq

/-- `main.rs` `Registro2Modelo720` (the binary's own detail record: the
valuation columns are `Option<i64>` cent amounts with separate sign
characters). -/
structure Registro2Modelo720 where
  tipo : ℤ
  modelo_declaracion : ℤ
  ejercicio : ℤ
  nif_declarante : String
  nif_declarado : String
  nif_representante_legal : Option String
  nombre : String
  clave_condicion_declarante : ℤ
  tipo_titularidad : Option String
  clave_tipo_bien : Option Char
  subclave_tipo_bien : Option ℤ
  tipo_derecho_real_sobre_inmueble : Option String
  codigo_pais : String
  clave_identificacion : Option ℤ
  identificacion_valores : Option String
  clave_identificacion_cuenta : Option Char
  codigo_bic : Option String
  codigo_cuenta : Option String
  identificacion_entidad : Option String
  nif_pais_residencia_fiscal : Option String
  nombre_via_publica_entidad : Option String
  complemento_entidad : Option String
  poblacion_entidad : Option String
  provincia_entidad : Option String
  codigo_postal_entidad : Option String
  codigo_pais_entidad : Option String
  fecha_incorporacion : Modelo.Modelo720Date
  origen_bien_derecho : Option Char
  fecha_extincion : Modelo.Modelo720Date
  valoracion_1_negativa : Char
  valoracion1 : Option ℤ
  valoracion_2_negativa : Char
  valoracion2 : Option ℤ
  clave_representacion_valores : Option Char
  numero_valores : Option ℚ
  clave_tipo_bien_inmueble : Option Char
  porcentaje : ℤ
  blancos : String
deriving DecidableEq

/-- `main.rs` `Registro2Modelo720::new`. -/
def Registro2Modelo720.new (ejercicio : ℤ) (nif nombre codigo_pais : String) :
    Registro2Modelo720 where
  tipo := 2
  modelo_declaracion := 720
  ejercicio := ejercicio
  nif_declarante := nif
  nif_declarado := nif
  nif_representante_legal := none
  nombre := nombre
  clave_condicion_declarante := 1
  tipo_titularidad := none
  clave_tipo_bien := none
  subclave_tipo_bien := none
  tipo_derecho_real_sobre_inmueble := none
  codigo_pais := codigo_pais
  clave_identificacion := none
  identificacion_valores := none
  clave_identificacion_cuenta := none
  codigo_bic := none
  codigo_cuenta := none
  identificacion_entidad := none
  nif_pais_residencia_fiscal := none
  nombre_via_publica_entidad := none
  complemento_entidad := none
  poblacion_entidad := none
  provincia_entidad := none
  codigo_postal_entidad := none
  codigo_pais_entidad := none
  fecha_incorporacion := (none : Option Modelo.NaiveDate)
  origen_bien_derecho := none
  fecha_extincion := (none : Option Modelo.NaiveDate)
  valoracion_1_negativa := ' '
  valoracion1 := none
  valoracion_2_negativa := ' '
  valoracion2 := none
  clave_representacion_valores := none
  numero_valores := none
  clave_tipo_bien_inmueble := none
  porcentaje := 10000
  blancos := ""

/-- The `AssetWithValuation` capability set of `main.rs`/`assets.rs`: the
reconciliation only sees assets through these six accessors, so a trait
object is a record of them.  `Shares` is a plain `Decimal` wrapper and is
modelled as the rational itself. -/
structure AssetWithValuation where
  isin : String
  valuation : ℚ
  shares : ℚ
  country_of_deposit : String
  description : String
  modelo_720_code : Modelo720Code
deriving DecidableEq

/-- `price_per_share = valuation / shares`; `Decimal` division panics on a
zero divisor, modelled as `none`. -/
def AssetWithValuation.pricePerShare (a : AssetWithValuation) : Option ℚ :=
  if a.shares = 0 then none else some (a.valuation / a.shares)

/-- `shares_as_cents`: rounds to an integer of hundredths and converts with
`to_i64().unwrap()` — the unwrap panic beyond the `i64` range is `none`. -/
def AssetWithValuation.sharesAsCents (a : AssetWithValuation) : Option ℤ :=
  Int.toI64 (roundHalfAwayFromZero (a.shares * 100))

/-- `valuation_as_cents`: rounds to integer cents and converts with
`to_i64().unwrap()` — the unwrap panic beyond the `i64` range is `none`. -/
def AssetWithValuation.valuationAsCents (a : AssetWithValuation) : Option ℤ :=
  Int.toI64 (roundHalfAwayFromZero (a.valuation * 100))

/-- `main.rs`/`assets.rs` `modelo_720_registro`: baseline detail record for
an asset.  The byte slice `&self.isin()[..2]` panics when the identifier is
shorter than two bytes or byte 2 is not a character boundary; that panic is
the `none` of `utf8Take`.  (The description's `to_uppercase` is modelled by
Lean's ASCII `String.toUpper`; the two agree on ASCII descriptions, and no
claim depends on `identificacion_entidad`.) -/
def AssetWithValuation.modelo720Registro (a : AssetWithValuation)
    (ejercicio : ℤ) (nif name : String) : Option Registro2Modelo720 :=
  (utf8Take 2 a.isin.data).map fun countryChars =>
    let registro := Registro2Modelo720.new ejercicio nif name a.country_of_deposit
    { registro with
      clave_representacion_valores := some 'A'
      clave_identificacion := some 1
      identificacion_valores := some a.isin
      clave_tipo_bien := some a.modelo_720_code.code
      subclave_tipo_bien := some a.modelo_720_code.subcode
      identificacion_entidad := some a.description.toUpper
      codigo_pais_entidad := some (String.mk countryChars)
      origen_bien_derecho := some 'M' }

/-- `main.rs` `asset_difference` (only the share difference is used by the
reconciliation). -/
def assetDifferenceShares (left right : AssetWithValuation) : ℚ :=
  left.shares - right.shares

/-- `main.rs` `JoinResult`. -/
inductive JoinResult where
  | OuterLeft (l : AssetWithValuation)
  | Inner (l r : AssetWithValuation)
  | OuterRight (r : AssetWithValuation)
deriving DecidableEq

/-- The identifier a join result was matched on. -/
def JoinResult.key : JoinResult → String
  | .OuterLeft l => l.isin
  | .Inner l _ => l.isin
  | .OuterRight r => r.isin

/-- `main.rs` `FullJoinIterator::next`, as the list of items the iterator
produces over two input sequences: two-cursor walk comparing the head
identifiers with the byte-wise string order. -/
def fullJoin : List AssetWithValuation → List AssetWithValuation → List JoinResult
  | [], [] => []
  | [], r :: rs => .OuterRight r :: fullJoin [] rs
  | l :: ls, [] => .OuterLeft l :: fullJoin ls []
  | l :: ls, r :: rs =>
    if l.isin < r.isin then
      .OuterLeft l :: fullJoin ls (r :: rs)
    else if l.isin = r.isin then
      .Inner l r :: fullJoin ls rs
    else
      .OuterRight r :: fullJoin (l :: ls) rs
termination_by ls rs => ls.length + rs.length

/-- `main.rs` `PortfolioChange`. -/
inductive PortfolioChange where
  | NewAcquisition (a : AssetWithValuation)
  | Changed (nw old : AssetWithValuation)
  | Sold (a : AssetWithValuation)
deriving DecidableEq

/-- The classification map of `compute_modelo720`'s first `.map`. -/
def classify : JoinResult → PortfolioChange
  | .OuterLeft l => .NewAcquisition l
  | .Inner l r => .Changed l r
  | .OuterRight r => .Sold r

/-- The identifier of a classification. -/
def PortfolioChange.changeKey : PortfolioChange → String
  | .NewAcquisition a => a.isin
  | .Changed nw _ => nw.isin
  | .Sold a => a.isin

/-- The classification stream of the reconciliation: full outer join of the
current portfolio (left) against the previous one (right), classified. -/
def reconcile (current previous : List AssetWithValuation) : List PortfolioChange :=
  (fullJoin current previous).map classify

/-- The `flat_map` body of `compute_modelo720`: expansion of one
classification into its detail records.  `none` models a panic: a
non-sliceable identifier in `modelo_720_registro`, `price_per_share` on a
zero-share asset (the price is computed before the three `Changed` branches
split), or an `unwrap` on an out-of-range `to_i64`.  The bare
`valoracion1 = (...).to_i64()` assignments keep the `Option` and are not
panics: out of range they silently leave the valuation unset. -/
def expandChange (ejercicio : ℤ) (nif name : String) :
    PortfolioChange → Option (List Registro2Modelo720)
  | .NewAcquisition acquisition => do
    let registro ← acquisition.modelo720Registro ejercicio nif name
    let cents ← acquisition.valuationAsCents
    pure [{ registro with
        origen_bien_derecho := some 'A'
        numero_valores := some acquisition.shares
        valoracion1 := some cents }]
  | .Changed newValue oldValue => do
    let diffShares := assetDifferenceShares newValue oldValue
    let currentPricePerShare ← newValue.pricePerShare
    if 0 < diffShares then
      let previousRegistro0 ← oldValue.modelo720Registro ejercicio nif name
      -- main.rs:855 evaluates and discards `Some(old_value.shares_as_cents())`;
      -- the dead expression is kept because its `unwrap` can still panic.
      let _ ← oldValue.sharesAsCents
      let previousRegistro := { previousRegistro0 with
        origen_bien_derecho := some 'M'
        numero_valores := some oldValue.shares
        valoracion1 :=
          Int.toI64 (roundHalfAwayFromZero
            (oldValue.shares * currentPricePerShare * 100)) }
      let newRegistro0 ← newValue.modelo720Registro ejercicio nif name
      let newRegistro := { newRegistro0 with
        origen_bien_derecho := some 'A'
        numero_valores := some diffShares
        valoracion1 :=
          Int.toI64 (roundHalfAwayFromZero
            (diffShares * currentPricePerShare * 100)) }
      pure [previousRegistro, newRegistro]
    else if diffShares = 0 then
      let currentRegistro0 ← newValue.modelo720Registro ejercicio nif name
      pure [{ currentRegistro0 with origen_bien_derecho := some 'M' }]
    else
      let currentRegistro0 ← newValue.modelo720Registro ejercicio nif name
      let currentRegistro := { currentRegistro0 with origen_bien_derecho := some 'M' }
      let saleRegistro := { currentRegistro with
        origen_bien_derecho := some 'C'
        numero_valores := some |diffShares|
        valoracion1 :=
          Int.toI64 (roundHalfAwayFromZero
            (|diffShares| * currentPricePerShare * 100)) }
      pure [currentRegistro, saleRegistro]
  | .Sold oldValue =>
    (oldValue.modelo720Registro ejercicio nif name).map fun registro =>
      [{ registro with
          origen_bien_derecho := some 'C'
          numero_valores := some oldValue.shares }]

/-- The entry list computed by `compute_modelo720` (the `flat_map` over the
classified join). -/
def computeEntries (ejercicio : ℤ) (nif name : String)
    (current previous : List AssetWithValuation) : Option (List Registro2Modelo720) :=
  ((reconcile current previous).mapM (expandChange ejercicio nif name)).map List.flatten

/-- The assets referenced by a classification (the ones whose baseline
detail records the expansion builds). -/
def PortfolioChange.changeAssets : PortfolioChange → List AssetWithValuation
  | .NewAcquisition a => [a]
  | .Changed nw old => [nw, old]
  | .Sold a => [a]

/-- A concrete ETF-like asset fixture for witnesses. -/
def exampleAsset (isin : String) (valuation shares : ℚ) : AssetWithValuation :=
  { isin := isin
    valuation := valuation
    shares := shares
    country_of_deposit := "US"
    description := "Example Fund"
    modelo_720_code := { code := 'I', subcode := 0 } }

/-- Specification-side predicate: a classification is correct for the input
portfolios when a `NewAcquisition` carries a left-only asset, a `Changed`
carries a matched pair, and a `Sold` carries a right-only asset. -/
def PortfolioChange.classifiedCorrectly
    (current previous : List AssetWithValuation) : PortfolioChange → Prop
  | .NewAcquisition a =>
      a ∈ current ∧ a.isin ∉ previous.map AssetWithValuation.isin
  | .Changed nw old => nw ∈ current ∧ old ∈ previous ∧ nw.isin = old.isin
  | .Sold a => a ∈ previous ∧ a.isin ∉ current.map AssetWithValuation.isin

end Main

namespace Modelo

/-- Specification-side rendering of a `MonetaryAmount`, following the spec
text: a sign character (`'N'` if negative else space) followed by the
absolute value in cents, zero-padded to `N - 1` characters. -/
def specEncodedForm (N : ℕ) (v : ℚ) : String :=
  String.mk
    ((if Modelo720Number.roundedToCents v < 0 then ['N'] else [' ']) ++
      padLeftZeros (N - 1) (natChars |roundHalfAwayFromZero (v * 100)|.toNat))

/-- A concrete witness declaration: two default detail records with a
hand-assembled header showing count 2 and column-1 total 500. -/
def exampleDeclA : Modelo720 :=
  { header := { Registro1Modelo720.new 2023 "X0000000" "DOE JOHN" 600000000 with
      numero_registros_tipo2 := 2
      suma_valoracion1 := 500 }
    entries := List.replicate 2 (Registro2Modelo720.new 2023 "X0000000" "DOE JOHN" "ES") }

/-- A concrete witness declaration: three default detail records with a
hand-assembled header showing count 3 and column-1 total 300. -/
def exampleDeclB : Modelo720 :=
  { header := { Registro1Modelo720.new 2023 "Y0000000" "ROE JANE" 600000001 with
      numero_registros_tipo2 := 3
      suma_valoracion1 := 300 }
    entries := List.replicate 3 (Registro2Modelo720.new 2023 "Y0000000" "ROE JANE" "US") }

end Modelo

/-! ### Helper lemmas about rounding and `i64` conversion -/

theorem roundHalfAwayFromZero_intCast (k : ℤ) : roundHalfAwayFromZero (k : ℚ) = k := by
  unfold roundHalfAwayFromZero
  split
  · rw [Int.floor_int_add]
    norm_num
  · rw [show -(k : ℚ) = ((-k : ℤ) : ℚ) by push_cast; ring, Int.floor_int_add]
    norm_num

theorem roundedToCents_neg_iff (q : ℚ) :
    Modelo.Modelo720Number.roundedToCents q < 0 ↔ roundHalfAwayFromZero (q * 100) < 0 := by
  unfold Modelo.Modelo720Number.roundedToCents roundDp2
  constructor
  · intro h
    by_contra hc
    push_neg at hc
    have h1 : (0 : ℚ) ≤ ((roundHalfAwayFromZero (q * 100) : ℤ) : ℚ) :=
      Int.cast_nonneg.mpr hc
    have h2 : (0 : ℚ) ≤ ((roundHalfAwayFromZero (q * 100) : ℤ) : ℚ) / 100 :=
      div_nonneg h1 (by norm_num)
    linarith
  · intro h
    have h1 : ((roundHalfAwayFromZero (q * 100) : ℤ) : ℚ) < 0 := by exact_mod_cast h
    exact div_neg_of_neg_of_pos h1 (by norm_num)

theorem serialize_arg_eq (q : ℚ) :
    |Modelo.Modelo720Number.roundedToCents q| * 100 =
      ((|roundHalfAwayFromZero (q * 100)| : ℤ) : ℚ) := by
  unfold Modelo.Modelo720Number.roundedToCents roundDp2
  rw [abs_div, Int.cast_abs]
  rw [show |(100 : ℚ)| = 100 by norm_num]
  rw [div_mul_cancel₀ _ (by norm_num : (100 : ℚ) ≠ 0)]

theorem Decimal.toI64_intCast (k : ℤ) :
    Decimal.toI64 (k : ℚ) = if i64Min ≤ k ∧ k ≤ i64Max then some k else none := by
  unfold Decimal.toI64
  simp [Rat.num_intCast, Rat.den_intCast, Int.tdiv_one]

theorem serialize_eq (N : ℕ) (q : ℚ) :
    Modelo.Modelo720Number.serialize N q =
      (Decimal.toI64 ((|roundHalfAwayFromZero (q * 100)| : ℤ) : ℚ)).map fun number =>
        String.mk
          ((if roundHalfAwayFromZero (q * 100) < 0 then 'N' else ' ') ::
            padLeftZeros (N - 1) (natChars number.toNat)) := by
  simp only [Modelo.Modelo720Number.serialize, serialize_arg_eq, roundedToCents_neg_iff]

theorem serialize_of_le (N : ℕ) (q : ℚ)
    (h : |roundHalfAwayFromZero (q * 100)| ≤ i64Max) :
    Modelo.Modelo720Number.serialize N q =
      some (String.mk
        ((if roundHalfAwayFromZero (q * 100) < 0 then 'N' else ' ') ::
          padLeftZeros (N - 1) (natChars |roundHalfAwayFromZero (q * 100)|.toNat))) := by
  rw [serialize_eq, Decimal.toI64_intCast]
  have hP : i64Min ≤ |roundHalfAwayFromZero (q * 100)| ∧
      |roundHalfAwayFromZero (q * 100)| ≤ i64Max :=
    ⟨le_trans (by norm_num [i64Min]) (abs_nonneg _), h⟩
  rw [if_pos hP]
  rfl

theorem serialize_none_of_gt (N : ℕ) (q : ℚ)
    (h : i64Max < |roundHalfAwayFromZero (q * 100)|) :
    Modelo.Modelo720Number.serialize N q = none := by
  rw [serialize_eq, Decimal.toI64_intCast]
  have hP : ¬(i64Min ≤ |roundHalfAwayFromZero (q * 100)| ∧
      |roundHalfAwayFromZero (q * 100)| ≤ i64Max) :=
    fun hc => absurd hc.2 (not_le.mpr h)
  rw [if_neg hP]
  rfl

/-! ### Helper lemmas about digit strings and the decimal parser -/

theorem natCharsGo_fuel : ∀ {f g n : ℕ}, n < f → n < g → natCharsGo f n = natCharsGo g n := by
  intro f
  induction f with
  | zero => omega
  | succ f ih =>
    intro g n hf hg
    cases g with
    | zero => omega
    | succ g =>
      simp only [natCharsGo]
      by_cases h : n < 10
      · simp [h]
      · have hdiv : n / 10 < n := Nat.div_lt_self (by omega) (by omega)
        rw [if_neg h, if_neg h, ih (g := g) (n := n / 10) (by omega) (by omega)]

theorem natChars_unfold (n : ℕ) :
    natChars n =
      if n < 10 then [Nat.digitChar n]
      else natChars (n / 10) ++ [Nat.digitChar (n % 10)] := by
  unfold natChars
  rw [show natCharsGo (n + 1) n =
      if n < 10 then [Nat.digitChar n]
      else natCharsGo n (n / 10) ++ [Nat.digitChar (n % 10)] from rfl]
  by_cases h : n < 10
  · simp [h]
  · have hdiv : n / 10 < n := Nat.div_lt_self (by omega) (by omega)
    rw [if_neg h, if_neg h,
      natCharsGo_fuel (f := n) (g := n / 10 + 1) (n := n / 10) (by omega) (by omega)]

theorem digitChar_isDigit {d : ℕ} (h : d < 10) : (Nat.digitChar d).isDigit = true := by
  interval_cases d <;> decide

theorem digitChar_toNat {d : ℕ} (h : d < 10) : (Nat.digitChar d).toNat - 48 = d := by
  interval_cases d <;> decide

theorem digitChar_utf8Size {d : ℕ} (h : d < 10) : (Nat.digitChar d).utf8Size = 1 := by
  interval_cases d <;> decide

theorem natChars_forall_digit (n : ℕ) : ∀ c ∈ natChars n, c.isDigit = true := by
  induction n using Nat.strong_induction_on with
  | _ n ih =>
    rw [natChars_unfold]
    by_cases h : n < 10
    · simpa [h] using digitChar_isDigit h
    · rw [if_neg h]
      intro c hc
      rcases List.mem_append.mp hc with hc | hc
      · exact ih (n / 10) (Nat.div_lt_self (by omega) (by omega)) c hc
      · rcases List.mem_singleton.mp hc with rfl
        exact digitChar_isDigit (Nat.mod_lt _ (by omega))

theorem natChars_ne_nil (n : ℕ) : natChars n ≠ [] := by
  rw [natChars_unfold]
  by_cases h : n < 10 <;> simp [h]

theorem charsVal_append (m : ℕ) (xs ys : List Char) :
    charsVal m (xs ++ ys) = charsVal (charsVal m xs) ys :=
  List.foldl_append ..

theorem charsVal_natChars (n : ℕ) : charsVal 0 (natChars n) = n := by
  induction n using Nat.strong_induction_on with
  | _ n ih =>
    rw [natChars_unfold]
    by_cases h : n < 10
    · rw [if_pos h]
      show 10 * 0 + ((Nat.digitChar n).toNat - 48) = n
      rw [digitChar_toNat h]
      omega
    · rw [if_neg h, charsVal_append, ih (n / 10) (Nat.div_lt_self (by omega) (by omega))]
      show 10 * (n / 10) + ((Nat.digitChar (n % 10)).toNat - 48) = n
      rw [digitChar_toNat (Nat.mod_lt _ (by omega))]
      omega

theorem natChars_length_le : ∀ {n k : ℕ}, 1 ≤ k → n < 10 ^ k → (natChars n).length ≤ k := by
  intro n
  induction n using Nat.strong_induction_on with
  | _ n ih =>
    intro k hk h
    rw [natChars_unfold]
    by_cases hn : n < 10
    · rw [if_pos hn]
      simpa using hk
    · rw [if_neg hn]
      have hk2 : 2 ≤ k := by
        by_contra hc
        have : k = 1 := by omega
        subst this
        simp at h
        omega
      have hdiv : n / 10 < 10 ^ (k - 1) := by
        rw [Nat.div_lt_iff_lt_mul (by omega)]
        calc n < 10 ^ k := h
        _ = 10 ^ (k - 1) * 10 := by
            rw [← pow_succ]
            congr 1
            omega
      have := ih (n / 10) (Nat.div_lt_self (by omega) (by omega)) (by omega) hdiv
      simp only [List.length_append, List.length_singleton]
      omega

theorem padLeftZeros_length (w : ℕ) (ds : List Char) :
    (padLeftZeros w ds).length = max w ds.length := by
  simp [padLeftZeros]
  omega

theorem charsVal_replicate_zero (k : ℕ) : charsVal 0 (List.replicate k '0') = 0 := by
  induction k with
  | zero => rfl
  | succ k ih =>
    rw [List.replicate_succ]
    show charsVal (10 * 0 + ('0'.toNat - 48)) (List.replicate k '0') = 0
    norm_num
    exact ih

theorem parseDecimalAux_digits :
    ∀ (cs : List Char), (∀ c ∈ cs, c.isDigit = true) →
      ∀ m, parseDecimalAux cs true false m 0 = some ((charsVal m cs : ℕ) : ℚ) := by
  intro cs
  induction cs with
  | nil => intro _ m; simp [parseDecimalAux, charsVal]
  | cons c cs ih =>
    intro h m
    have hc : c.isDigit = true := h c (by simp)
    rw [show parseDecimalAux (c :: cs) true false m 0 =
        if c.isDigit then
          parseDecimalAux cs true false (10 * m + (c.toNat - 48)) 0
        else if c = '.' then parseDecimalAux cs true true m 0
        else if c = '_' then parseDecimalAux cs true false m 0
        else none from rfl]
    rw [if_pos hc, ih (fun x hx => h x (by simp [hx])) (10 * m + (c.toNat - 48))]
    rfl

theorem isDigit_ne_plus {c : Char} (h : c.isDigit = true) : c ≠ '+' := by
  rintro rfl; exact absurd h (by decide)

theorem isDigit_ne_minus {c : Char} (h : c.isDigit = true) : c ≠ '-' := by
  rintro rfl; exact absurd h (by decide)

theorem fromStrChars_digits (cs : List Char) (hne : cs ≠ [])
    (h : ∀ c ∈ cs, c.isDigit = true) :
    Decimal.fromStrChars cs = some ((charsVal 0 cs : ℕ) : ℚ) := by
  cases cs with
  | nil => exact absurd rfl hne
  | cons c cs =>
    have hc : c.isDigit = true := h c (by simp)
    rw [show Decimal.fromStrChars (c :: cs) =
        if c = '+' then parseDecimalAux cs false false 0 0
        else if c = '-' then (parseDecimalAux cs false false 0 0).map (fun q => -q)
        else parseDecimalAux (c :: cs) false false 0 0 from rfl]
    rw [if_neg (isDigit_ne_plus hc), if_neg (isDigit_ne_minus hc)]
    rw [show parseDecimalAux (c :: cs) false false 0 0 =
        if c.isDigit then
          parseDecimalAux cs true false (10 * 0 + (c.toNat - 48)) 0
        else if c = '.' then parseDecimalAux cs false true 0 0
        else if c = '_' then parseDecimalAux cs false false 0 0
        else none from rfl]
    rw [if_pos hc, parseDecimalAux_digits cs (fun x hx => h x (by simp [hx]))]
    rfl

theorem byteLen_all_one {l : List Char} (h : ∀ c ∈ l, c.utf8Size = 1) :
    (l.map Char.utf8Size).sum = l.length := by
  induction l with
  | nil => rfl
  | cons c cs ih =>
    simp only [List.map_cons, List.sum_cons, List.length_cons,
      h c (by simp), ih (fun x hx => h x (by simp [hx]))]
    omega

theorem isDigit_utf8Size {c : Char} (h : c.isDigit = true) : c.utf8Size = 1 := by
  have h2 : c ≤ '9' := by
    simp only [Char.isDigit, Bool.and_eq_true, decide_eq_true_eq] at h
    exact h.2
  have h5 : c.val.toNat ≤ 57 := h2
  have h4 : c.val ≤ UInt32.ofNatCore 0x7F (by decide) := by
    show c.val.toNat ≤ 127
    omega
  show (if c.val ≤ UInt32.ofNatCore 0x7F (by decide) then 1
    else if c.val ≤ UInt32.ofNatCore 0x7FF (by decide) then 2
    else if c.val ≤ UInt32.ofNatCore 0xFFFF (by decide) then 3 else 4) = 1
  rw [if_pos h4]

theorem natChars_length_ge : ∀ {k n : ℕ}, 10 ^ k ≤ n → k + 1 ≤ (natChars n).length := by
  intro k
  induction k with
  | zero =>
    intro n _
    have := natChars_ne_nil n
    cases hn : natChars n with
    | nil => exact absurd hn this
    | cons a l => simp
  | succ k ih =>
    intro n h
    have hn : ¬n < 10 := by
      have : 10 ^ (k + 1) ≥ 10 := by
        calc 10 ^ (k + 1) ≥ 10 ^ 1 := Nat.pow_le_pow_right (by omega) (by omega)
        _ = 10 := by norm_num
      omega
    rw [natChars_unfold, if_neg hn]
    have hdiv : 10 ^ k ≤ n / 10 := by
      rw [Nat.le_div_iff_mul_le (by omega)]
      calc 10 ^ k * 10 = 10 ^ (k + 1) := by rw [pow_succ]
      _ ≤ n := h
    have := ih hdiv
    simp only [List.length_append, List.length_singleton]
    omega

/-! ### C5: the MonetaryAmount encoded form and decode splitting rule -/

theorem utf8Take_one_cons {c : Char} (h : c.utf8Size = 1) (l : List Char) :
    utf8Take 1 (c :: l) = some [c] := by
  show utf8Take (0 + 1) (c :: l) = some [c]
  unfold utf8Take
  rw [h]
  simp [utf8Take]

theorem Int.toI64_of_abs_le {z : ℤ} (h : |z| ≤ i64Max) : Int.toI64 z = some z := by
  rcases abs_le.mp h with ⟨h1, h2⟩
  have e1 : (2 : ℤ) ^ 63 = 9223372036854775808 := by norm_num
  have h0 : i64Min ≤ z := by
    unfold i64Min
    unfold i64Max at h1
    omega
  unfold Int.toI64
  rw [if_pos ⟨h0, h2⟩]

theorem Int.toI64_none_of_gt {z : ℤ} (h : i64Max < z) : Int.toI64 z = none := by
  unfold Int.toI64
  rw [if_neg (fun hc => absurd hc.2 (not_le.mpr h))]

/-- C5 (amended): for every decimal value and width `W` whose cent
magnitude is `i64`-representable (the only case in which the encoder
returns), the encoded form is one sign character (`'N'` if the cent-rounded
value is negative, space otherwise) followed by the absolute value in cents
zero-padded to `W - 1` characters.  Decoding splits off the first BYTE as a
sign exactly when the input byte length equals `W` — succeeding only when
the first character is a single byte and panicking otherwise — and when the
length differs from `W` it parses the whole string as a signless-position
number of cents. -/
theorem c5_encoding_decoding_amended (N : ℕ) (v : ℚ) (s : String)
    (hrange : |roundHalfAwayFromZero (v * 100)| ≤ i64Max) :
    Modelo.Modelo720Number.serialize N v = some (Modelo.specEncodedForm N v) ∧
    (∀ c cs, strByteLen s = N → s.data = c :: cs → c.utf8Size = 1 →
      Modelo.Modelo720Number.visitStr N s =
        (Decimal.fromStrChars cs).map fun n => (if [c] = [' '] then n else -n) / 100) ∧
    (strByteLen s = N → utf8Take 1 s.data = none →
      Modelo.Modelo720Number.visitStr N s = none) ∧
    (strByteLen s ≠ N →
      Modelo.Modelo720Number.visitStr N s =
        (Decimal.fromStrChars s.data).map fun n => n / 100) := by
  refine ⟨?_, ?_, ?_, ?_⟩
  · rw [serialize_of_le N v hrange]
    unfold Modelo.specEncodedForm
    simp only [roundedToCents_neg_iff]
    by_cases hb : roundHalfAwayFromZero (v * 100) < 0 <;> simp [hb]
  · intro c cs h1 h2 h3
    simp only [Modelo.Modelo720Number.visitStr, h1, ite_true, h2,
      utf8Take_one_cons h3, Option.map_some', Option.some_bind,
      List.drop_succ_cons, List.drop_zero]
  · intro h1 h2
    simp only [Modelo.Modelo720Number.visitStr, h1, ite_true, h2, Option.map_none',
      Option.none_bind]
  · intro h
    simp only [Modelo.Modelo720Number.visitStr, if_neg h, Option.some_bind]
    simp

/-- C5 counterexample: the 18-byte input `"é1234567890123456"` has byte
length `W = 18`, but its first character occupies two bytes, so the
decoder's `split_at(1)` panics inside that character instead of splitting
off the first character as a sign — while the claim's character-split
reading would decode it successfully to `-12345678901234.56`. -/
theorem c5_counterexample :
    strByteLen "é1234567890123456" = 18 ∧
    Modelo.Modelo720Number.visitStr 18 "é1234567890123456" = none ∧
    (Decimal.fromStrChars ("é1234567890123456".data.drop 1)).map
      (fun n => (if "é1234567890123456".data.take 1 = [' '] then n else -n) / 100) =
      some (-(1234567890123456 : ℚ) / 100) := by
  refine ⟨by decide, ?_, ?_⟩
  · simp only [Modelo.Modelo720Number.visitStr]
    rw [if_pos (by decide : strByteLen "é1234567890123456" = 18),
      show utf8Take 1 "é1234567890123456".data = none from by decide]
    rfl
  · rw [show "é1234567890123456".data.drop 1 =
        ['1', '2', '3', '4', '5', '6', '7', '8', '9', '0',
          '1', '2', '3', '4', '5', '6'] from by decide]
    rw [fromStrChars_digits _ (by decide) (by decide)]
    rw [show (charsVal 0 ['1', '2', '3', '4', '5', '6', '7', '8', '9', '0',
        '1', '2', '3', '4', '5', '6'] : ℕ) = 1234567890123456 from by decide]
    rw [show "é1234567890123456".data.take 1 = ['é'] from by decide]
    rw [Option.map_some']
    rw [if_neg (by decide : ¬(['é'] = [' ']))]
    norm_num

/-- Witness for C5 at `W = 6`: the value 5, the single-byte-headed input
`" 00123"`, the panic input `"é1234"` and the short input `"12"`. -/
theorem c5_witness :
    |roundHalfAwayFromZero ((5 : ℚ) * 100)| ≤ i64Max ∧
    Modelo.Modelo720Number.serialize 6 (5 : ℚ) = some (Modelo.specEncodedForm 6 (5 : ℚ)) ∧
    (strByteLen " 00123" = 6 ∧ " 00123".data = ' ' :: ['0', '0', '1', '2', '3'] ∧
      ' '.utf8Size = 1 ∧
      Modelo.Modelo720Number.visitStr 6 " 00123" =
        (Decimal.fromStrChars ['0', '0', '1', '2', '3']).map fun n =>
          (if [' '] = [' '] then n else -n) / 100) ∧
    (strByteLen "é1234" = 6 ∧ utf8Take 1 "é1234".data = none ∧
      Modelo.Modelo720Number.visitStr 6 "é1234" = none) ∧
    (strByteLen "12" ≠ 6 ∧
      Modelo.Modelo720Number.visitStr 6 "12" =
        (Decimal.fromStrChars "12".data).map fun n => n / 100) := by
  have h : |roundHalfAwayFromZero ((5 : ℚ) * 100)| ≤ i64Max := by
    rw [show (5 : ℚ) * 100 = ((500 : ℤ) : ℚ) by norm_num, roundHalfAwayFromZero_intCast]
    norm_num [i64Max]
  refine ⟨h, (c5_encoding_decoding_amended 6 5 " 00123" h).1,
    ⟨by decide, by decide, by decide,
      (c5_encoding_decoding_amended 6 5 " 00123" h).2.1 ' ' ['0', '0', '1', '2', '3']
        (by decide) (by decide) (by decide)⟩,
    ⟨by decide, by decide,
      (c5_encoding_decoding_amended 6 5 "é1234" h).2.2.1 (by decide) (by decide)⟩,
    ⟨by decide, (c5_encoding_decoding_amended 6 5 "12" h).2.2.2 (by decide)⟩⟩

/-! ### C6: MonetaryAmount round-trip at cent precision -/

/-- C6 (amended): for a value already rounded to 2 decimal places whose
magnitude in cents fits in `W - 1` digits (at the program's field widths,
`2 ≤ W ≤ 18`), decoding the encoding yields the same value — sign included;
and the zero value (the only rational the normalised `-0.00` denotes)
encodes with the positive/space sign character. -/
theorem c6_roundtrip_amended (N : ℕ) (v : ℚ) (hN1 : 2 ≤ N) (hN2 : N ≤ 18)
    (hv : roundDp2 v = v)
    (hfit : |roundHalfAwayFromZero (v * 100)| < 10 ^ (N - 1)) :
    (Modelo.Modelo720Number.serialize N v).bind (Modelo.Modelo720Number.visitStr N) =
        some v ∧
      (Modelo.Modelo720Number.serialize N (0 : ℚ)).map (fun t => t.data.head?) =
        some (some ' ') := by
  have habs : (0 : ℤ) ≤ |roundHalfAwayFromZero (v * 100)| := abs_nonneg _
  have hrange : |roundHalfAwayFromZero (v * 100)| ≤ i64Max := by
    have h17 : (10 : ℤ) ^ (N - 1) ≤ 10 ^ 17 :=
      pow_le_pow_right₀ (by norm_num) (by omega)
    have h18 : (10 : ℤ) ^ 17 ≤ i64Max := by norm_num [i64Max]
    omega
  constructor
  · rw [serialize_of_le N v hrange, Option.some_bind]
    set c : ℤ := roundHalfAwayFromZero (v * 100) with hcdef
    have hdigits : ∀ x ∈ natChars |c|.toNat, x.isDigit = true := natChars_forall_digit _
    have hlen_nat : |c|.toNat < 10 ^ (N - 1) := by
      have h1 : ((|c|.toNat : ℤ)) = |c| := Int.toNat_of_nonneg habs
      have h2 : ((|c|.toNat : ℤ)) < (((10 : ℕ) ^ (N - 1) : ℕ) : ℤ) := by
        rw [h1]
        push_cast
        exact hfit
      exact_mod_cast h2
    have hdslen : (natChars |c|.toNat).length ≤ N - 1 :=
      natChars_length_le (by omega) hlen_nat
    have hpadlen : (padLeftZeros (N - 1) (natChars |c|.toNat)).length = N - 1 := by
      rw [padLeftZeros_length]
      omega
    have hpaddig : ∀ x ∈ padLeftZeros (N - 1) (natChars |c|.toNat), x.isDigit = true := by
      intro x hx
      rcases List.mem_append.mp hx with hx | hx
      · rw [List.eq_of_mem_replicate hx]
        decide
      · exact hdigits x hx
    have hsize : ∀ x ∈ ((if c < 0 then 'N' else ' ') ::
        padLeftZeros (N - 1) (natChars |c|.toNat)), x.utf8Size = 1 := by
      intro x hx
      rcases List.mem_cons.mp hx with rfl | hx
      · by_cases hb : c < 0
        · rw [if_pos hb]; decide
        · rw [if_neg hb]; decide
      · exact isDigit_utf8Size (hpaddig x hx)
    have hbyte : strByteLen (String.mk ((if c < 0 then 'N' else ' ') ::
        padLeftZeros (N - 1) (natChars |c|.toNat))) = N := by
      unfold strByteLen
      rw [show (String.mk ((if c < 0 then 'N' else ' ') ::
          padLeftZeros (N - 1) (natChars |c|.toNat))).data =
          (if c < 0 then 'N' else ' ') :: padLeftZeros (N - 1) (natChars |c|.toNat)
        from rfl]
      rw [byteLen_all_one hsize]
      rw [List.length_cons, hpadlen]
      omega
    have hpadne : padLeftZeros (N - 1) (natChars |c|.toNat) ≠ [] := by
      intro hmt
      have := congrArg List.length hmt
      rw [hpadlen, List.length_nil] at this
      omega
    have hval : charsVal 0 (padLeftZeros (N - 1) (natChars |c|.toNat)) = |c|.toNat := by
      unfold padLeftZeros
      rw [charsVal_append, charsVal_replicate_zero, charsVal_natChars]
    have hvq : ((|c|.toNat : ℕ) : ℚ) = |(c : ℚ)| := by
      rw [show ((|c|.toNat : ℕ) : ℚ) = ((((|c|.toNat : ℕ) : ℤ)) : ℚ) by push_cast; ring]
      rw [Int.toNat_of_nonneg habs, Int.cast_abs]
    have hvdef : ((c : ℤ) : ℚ) / 100 = v := hv
    have hsign1 : (if c < 0 then 'N' else ' ').utf8Size = 1 :=
      hsize _ (List.mem_cons_self _ _)
    simp only [Modelo.Modelo720Number.visitStr, hbyte, ite_true,
      utf8Take_one_cons hsign1, Option.map_some', Option.some_bind,
      List.drop_succ_cons, List.drop_zero]
    rw [fromStrChars_digits _ hpadne hpaddig, hval, Option.map_some']
    by_cases hb : c < 0
    · rw [if_pos hb, if_neg (by decide : ¬(['N'] = [' ']))]
      rw [hvq, abs_of_neg (show ((c : ℤ) : ℚ) < 0 by exact_mod_cast hb)]
      rw [neg_neg, hvdef]
    · rw [if_neg hb, if_pos rfl]
      rw [hvq, abs_of_nonneg (show (0 : ℚ) ≤ ((c : ℤ) : ℚ) by
        exact_mod_cast not_lt.mp hb)]
      rw [hvdef]
  · have h0 : roundHalfAwayFromZero ((0 : ℚ) * 100) = 0 := by
      rw [show ((0 : ℚ) * 100) = ((0 : ℤ) : ℚ) by norm_num]
      exact roundHalfAwayFromZero_intCast 0
    have h0range : |roundHalfAwayFromZero ((0 : ℚ) * 100)| ≤ i64Max := by
      rw [h0]
      norm_num [i64Max]
    rw [serialize_of_le N 0 h0range, h0]
    rw [if_neg (by omega : ¬(0 : ℤ) < 0)]
    rfl

/-- Witness for C6 at `W = 18`, `v = -123/100`. -/
theorem c6_witness :
    (2 ≤ 18 ∧ 18 ≤ 18 ∧ roundDp2 (-(123 / 100) : ℚ) = -(123 / 100) ∧
      |roundHalfAwayFromZero ((-(123 / 100) : ℚ) * 100)| < 10 ^ (18 - 1)) ∧
    (Modelo.Modelo720Number.serialize 18 (-(123 / 100) : ℚ)).bind
        (Modelo.Modelo720Number.visitStr 18) = some (-(123 / 100) : ℚ) := by
  have harg : ((-(123 / 100) : ℚ)) * 100 = ((-123 : ℤ) : ℚ) := by norm_num
  have hc : roundHalfAwayFromZero ((-(123 / 100) : ℚ) * 100) = -123 := by
    rw [harg, roundHalfAwayFromZero_intCast]
  have hv : roundDp2 (-(123 / 100) : ℚ) = -(123 / 100) := by
    unfold roundDp2
    rw [hc]
    norm_num
  have hfit : |roundHalfAwayFromZero ((-(123 / 100) : ℚ) * 100)| < 10 ^ (18 - 1) := by
    rw [hc]
    norm_num
  exact ⟨⟨by omega, by omega, hv, hfit⟩,
    (c6_roundtrip_amended 18 (-(123 / 100)) (by omega) (by omega) hv hfit).1⟩

/-- C6 counterexample: the value `10^15` euros is already rounded to two
decimal places, but decoding its width-18 encoding fails (the cent value has
18 digits, so the encoded string is 19 characters long and the whole-string
parse chokes on the leading sign character), so the round-trip does not
yield the value back and the claim as stated is false. -/
theorem c6_counterexample :
    roundDp2 ((10 : ℚ) ^ 15) = (10 : ℚ) ^ 15 ∧
    (Modelo.Modelo720Number.serialize 18 ((10 : ℚ) ^ 15)).bind
      (Modelo.Modelo720Number.visitStr 18) = none := by
  have harg : ((10 : ℚ) ^ 15) * 100 = ((10 ^ 17 : ℤ) : ℚ) := by norm_num
  have hc : roundHalfAwayFromZero (((10 : ℚ) ^ 15) * 100) = 10 ^ 17 := by
    rw [harg, roundHalfAwayFromZero_intCast]
  refine ⟨?_, ?_⟩
  · unfold roundDp2
    rw [hc]
    norm_num
  · have hrange : |roundHalfAwayFromZero (((10 : ℚ) ^ 15) * 100)| ≤ i64Max := by
      rw [hc]
      norm_num [i64Max]
    rw [serialize_of_le 18 ((10 : ℚ) ^ 15) hrange, hc]
    rw [if_neg (by norm_num : ¬((10 : ℤ) ^ 17) < 0)]
    rw [Option.some_bind]
    have htn : (|(10 : ℤ) ^ 17|).toNat = 10 ^ 17 := by
      rw [abs_of_nonneg (by norm_num : (0 : ℤ) ≤ 10 ^ 17)]
      rfl
    have hlen : 18 ≤ (natChars (|(10 : ℤ) ^ 17|).toNat).length := by
      rw [htn]
      exact natChars_length_ge (by norm_num)
    have hpaddig : ∀ x ∈ padLeftZeros (18 - 1) (natChars (|(10 : ℤ) ^ 17|).toNat),
        x.isDigit = true := by
      intro x hx
      rcases List.mem_append.mp hx with hx | hx
      · rw [List.eq_of_mem_replicate hx]
        decide
      · exact natChars_forall_digit _ x hx
    have hsize : ∀ x ∈ (' ' :: padLeftZeros (18 - 1) (natChars (|(10 : ℤ) ^ 17|).toNat)),
        x.utf8Size = 1 := by
      intro x hx
      rcases List.mem_cons.mp hx with rfl | hx
      · decide
      · exact isDigit_utf8Size (hpaddig x hx)
    have hbyte : strByteLen (String.mk
        (' ' :: padLeftZeros (18 - 1) (natChars (|(10 : ℤ) ^ 17|).toNat))) ≠ 18 := by
      unfold strByteLen
      rw [show (String.mk (' ' :: padLeftZeros (18 - 1)
          (natChars (|(10 : ℤ) ^ 17|).toNat))).data =
          ' ' :: padLeftZeros (18 - 1) (natChars (|(10 : ℤ) ^ 17|).toNat) from rfl]
      rw [byteLen_all_one hsize]
      rw [List.length_cons, padLeftZeros_length]
      omega
    simp only [Modelo.Modelo720Number.visitStr, hbyte, ite_false, Option.some_bind]
    rw [show Decimal.fromStrChars
        (' ' :: padLeftZeros (18 - 1) (natChars (|(10 : ℤ) ^ 17|).toNat)) = none from rfl]
    rfl

/-! ### C8: codec failure conditions -/

/-- C8 (amended): encoding fails only when the magnitude in cents exceeds
`W - 1` digits (at the program's widths, `W ≤ 19`; in fact it fails only
beyond the `i64` range).  Decoding succeeds whenever the remainder after
the optional sign position is a well-formed decimal numeral — in
particular whenever it is all digits and, at exact width, the first
character is a single byte — and not only there, since the number parser
also accepts signs, `'.'` and `'_'` in the remainder; at exact width it can
also panic instead of returning the malformed-number error, when byte 1 is
not a character boundary. -/
theorem c8_codec_failure_amended :
    (∀ (N : ℕ) (v : ℚ), N ≤ 19 → Modelo.Modelo720Number.serialize N v = none →
      10 ^ (N - 1) ≤ |roundHalfAwayFromZero (v * 100)|) ∧
    (∀ (N : ℕ) (s : String), strByteLen s ≠ N → s.data ≠ [] →
      (∀ c ∈ s.data, c.isDigit = true) →
      Modelo.Modelo720Number.visitStr N s =
        some (((charsVal 0 s.data : ℕ) : ℚ) / 100)) ∧
    (∀ (N : ℕ) (s : String) (c : Char) (cs : List Char), strByteLen s = N →
      s.data = c :: cs → c.utf8Size = 1 → cs ≠ [] →
      (∀ x ∈ cs, x.isDigit = true) →
      ∃ q, Modelo.Modelo720Number.visitStr N s = some q) ∧
    (∀ (N : ℕ) (s : String), strByteLen s = N → utf8Take 1 s.data = none →
      Modelo.Modelo720Number.visitStr N s = none) := by
  refine ⟨?_, ?_, ?_, ?_⟩
  · intro N v hN hfail
    by_contra hcon
    push_neg at hcon
    have hrange : |roundHalfAwayFromZero (v * 100)| ≤ i64Max := by
      have h1 : (10 : ℤ) ^ (N - 1) ≤ 10 ^ 18 :=
        pow_le_pow_right₀ (by norm_num) (by omega)
      have h2 : (10 : ℤ) ^ 18 ≤ i64Max := by norm_num [i64Max]
      omega
    rw [serialize_of_le N v hrange] at hfail
    exact Option.some_ne_none _ hfail
  · intro N s hne hd hdig
    simp only [Modelo.Modelo720Number.visitStr, hne, ite_false, Option.some_bind]
    rw [fromStrChars_digits s.data hd hdig]
    simp
  · intro N s c cs heq hdata hc1 hd hdig
    simp only [Modelo.Modelo720Number.visitStr, heq, ite_true, hdata,
      utf8Take_one_cons hc1, Option.map_some', Option.some_bind,
      List.drop_succ_cons, List.drop_zero]
    rw [fromStrChars_digits _ hd hdig]
    exact ⟨_, rfl⟩
  · intro N s heq hnone
    simp only [Modelo.Modelo720Number.visitStr, heq, ite_true, hnone,
      Option.map_none', Option.none_bind]

/-- C8 counterexample: the input `"1.5"` contains the non-digit `'.'` after
the optional sign position, yet decoding succeeds (the number parser accepts
decimal points), contradicting the claim that such inputs fail. -/
theorem c8_counterexample :
    Modelo.Modelo720Number.visitStr 18 "1.5" = some (3 / 200) ∧
    '.' ∈ "1.5".data ∧ '.'.isDigit = false := by
  refine ⟨?_, by decide, by decide⟩
  have hne : strByteLen "1.5" ≠ 18 := by decide
  simp only [Modelo.Modelo720Number.visitStr, hne, ite_false, Option.some_bind]
  rw [show Decimal.fromStrChars "1.5".data =
      parseDecimalAux ['1', '.', '5'] false false 0 0 from rfl]
  rw [show parseDecimalAux ['1', '.', '5'] false false 0 0 =
      parseDecimalAux ['5'] true true (10 * 0 + ('1'.toNat - 48)) 0 from by
    simp +decide [parseDecimalAux]]
  rw [show parseDecimalAux ['5'] true true (10 * 0 + ('1'.toNat - 48)) 0 =
      some (((10 * (10 * 0 + ('1'.toNat - 48)) + ('5'.toNat - 48) : ℕ) : ℚ) /
        (10 : ℚ) ^ (1 : ℕ)) from by simp +decide [parseDecimalAux]]
  rw [show ('1'.toNat - 48 : ℕ) = 1 from by decide,
    show ('5'.toNat - 48 : ℕ) = 5 from by decide]
  norm_num

/-- Witness for C8: a value whose cents exceed the `i64` range makes the
encoder fail (first conjunct), and the all-digit input `"0012"` decodes
successfully (second conjunct). -/
theorem c8_witness :
    (18 ≤ 19 ∧ Modelo.Modelo720Number.serialize 18 ((2 : ℚ) ^ 63) = none ∧
      10 ^ (18 - 1) ≤ |roundHalfAwayFromZero (((2 : ℚ) ^ 63) * 100)|) ∧
    (strByteLen "0012" ≠ 18 ∧ "0012".data ≠ [] ∧
      (∀ c ∈ "0012".data, c.isDigit = true) ∧
      Modelo.Modelo720Number.visitStr 18 "0012" =
        some (((charsVal 0 "0012".data : ℕ) : ℚ) / 100)) := by
  have harg : ((2 : ℚ) ^ 63) * 100 = ((2 ^ 63 * 100 : ℤ) : ℚ) := by norm_num
  have hc : roundHalfAwayFromZero (((2 : ℚ) ^ 63) * 100) = 2 ^ 63 * 100 := by
    rw [harg, roundHalfAwayFromZero_intCast]
  have hfail : Modelo.Modelo720Number.serialize 18 ((2 : ℚ) ^ 63) = none := by
    apply serialize_none_of_gt
    rw [hc]
    norm_num [i64Max]
  refine ⟨⟨by omega, hfail, c8_codec_failure_amended.1 18 ((2 : ℚ) ^ 63) (by omega) hfail⟩,
    ⟨by decide, by decide, by decide,
      c8_codec_failure_amended.2.1 18 "0012" (by decide) (by decide) (by decide)⟩⟩

/-! ### C3: the declaration builder recomputes the header totals -/

theorem foldl_add_eq_sum (l : List ℚ) : ∀ a : ℚ, l.foldl (· + ·) a = a + l.sum := by
  induction l with
  | nil => simp
  | cons x xs ih =>
    intro a
    simp only [List.foldl_cons, List.sum_cons, ih]
    ring

theorem Modelo720Number_sum_eq_sum (l : List ℚ) : Modelo.Modelo720Number.sum l = l.sum := by
  unfold Modelo.Modelo720Number.sum
  rw [foldl_add_eq_sum]
  ring

/-- C3: `Modelo720::new` produces a header whose detail-record count equals
the number of entries and whose two grand totals are the sums over all
entries of the corresponding valuation column rounded half-away-from-zero
to cents. -/
theorem c3_builder_header (ejercicio : ℤ) (nif nombre : String) (telefono : ℤ)
    (entries : List Modelo.Registro2Modelo720) :
    (Modelo.Modelo720.new ejercicio nif nombre telefono entries).header.numero_registros_tipo2 =
        entries.length ∧
      (Modelo.Modelo720.new ejercicio nif nombre telefono entries).header.suma_valoracion1 =
        (entries.map fun e => roundDp2 e.valoracion1).sum ∧
      (Modelo.Modelo720.new ejercicio nif nombre telefono entries).header.suma_valoracion2 =
        (entries.map fun e => roundDp2 e.valoracion2).sum := by
  refine ⟨rfl, ?_, ?_⟩
  · show Modelo.Modelo720Number.sum
        (entries.map fun x => Modelo.Modelo720Number.roundedToCents x.valoracion1) = _
    rw [Modelo720Number_sum_eq_sum]
    rfl
  · show Modelo.Modelo720Number.sum
        (entries.map fun x => Modelo.Modelo720Number.roundedToCents x.valoracion2) = _
    rw [Modelo720Number_sum_eq_sum]
    rfl

/-! ### C4: concatenation is an additive header merge -/

/-- C4: `Modelo720::concat` appends the second declaration's details after
the first's in order, and adds the second header's record count and grand
totals into the first header — an additive merge, not a recomputation; on
the concrete 2-entry/(col1 = 500) and 3-entry/(col1 = 300) declarations it
yields count 5, col1 total 800 and 5 detail lines. -/
theorem c4_concat_additive (a b : Modelo.Modelo720) :
    (a.concat b).entries = a.entries ++ b.entries ∧
    (a.concat b).header.numero_registros_tipo2 =
      a.header.numero_registros_tipo2 + b.header.numero_registros_tipo2 ∧
    (a.concat b).header.suma_valoracion1 =
      a.header.suma_valoracion1 + b.header.suma_valoracion1 ∧
    (a.concat b).header.suma_valoracion2 =
      a.header.suma_valoracion2 + b.header.suma_valoracion2 ∧
    (Modelo.exampleDeclA.concat Modelo.exampleDeclB).header.numero_registros_tipo2 = 5 ∧
    (Modelo.exampleDeclA.concat Modelo.exampleDeclB).header.suma_valoracion1 = 800 ∧
    (Modelo.exampleDeclA.concat Modelo.exampleDeclB).entries.length = 5 ∧
    (Modelo.exampleDeclA.concat Modelo.exampleDeclB).entries =
      Modelo.exampleDeclA.entries ++ Modelo.exampleDeclB.entries := by
  refine ⟨rfl, rfl, rfl, rfl, rfl, ?_, by decide, rfl⟩
  show (500 : ℚ) + 300 = 800
  norm_num

/-! ### C10: concatenation touches only the three summary header fields -/

/-- C10: `concat` changes only the detail-record count and the two grand
totals of the first declaration's header and appends to its entry list;
every other header field of the first declaration is unchanged, and of the
second declaration's header only those three summed fields matter — any
other declaration with the same three header fields and the same entries
concatenates to the same result. -/
theorem c10_concat_frame (a b : Modelo.Modelo720) :
    (a.concat b).header.tipo = a.header.tipo ∧
    (a.concat b).header.modelo_declaracion = a.header.modelo_declaracion ∧
    (a.concat b).header.ejercicio = a.header.ejercicio ∧
    (a.concat b).header.nif_declarante = a.header.nif_declarante ∧
    (a.concat b).header.nombre = a.header.nombre ∧
    (a.concat b).header.tipo_soporte = a.header.tipo_soporte ∧
    (a.concat b).header.telefono = a.header.telefono ∧
    (a.concat b).header.nombre_persona_contacto = a.header.nombre_persona_contacto ∧
    (a.concat b).header.id_declaracion = a.header.id_declaracion ∧
    (a.concat b).header.declaracion_complementaria = a.header.declaracion_complementaria ∧
    (a.concat b).header.declaracion_sustitutiva = a.header.declaracion_sustitutiva ∧
    (a.concat b).header.id_declaracion_anterior = a.header.id_declaracion_anterior ∧
    (a.concat b).header.blancos = a.header.blancos ∧
    (a.concat b).entries = a.entries ++ b.entries ∧
    (∀ d : Modelo.Modelo720,
      d.header.numero_registros_tipo2 = b.header.numero_registros_tipo2 →
      d.header.suma_valoracion1 = b.header.suma_valoracion1 →
      d.header.suma_valoracion2 = b.header.suma_valoracion2 →
      d.entries = b.entries →
      a.concat d = a.concat b) := by
  refine ⟨rfl, rfl, rfl, rfl, rfl, rfl, rfl, rfl, rfl, rfl, rfl, rfl, rfl, rfl, ?_⟩
  intro d h1 h2 h3 h4
  unfold Modelo.Modelo720.concat
  rw [h1, h2, h3, h4]

/-- Witness for C10's final conjunct at the two concrete declarations. -/
theorem c10_witness :
    Modelo.exampleDeclB.header.numero_registros_tipo2 =
        Modelo.exampleDeclB.header.numero_registros_tipo2 ∧
      Modelo.exampleDeclA.concat Modelo.exampleDeclB =
        Modelo.exampleDeclA.concat Modelo.exampleDeclB :=
  ⟨rfl, (c10_concat_frame Modelo.exampleDeclA Modelo.exampleDeclB).2.2.2.2.2.2.2.2.2.2.2.2.2.2
    Modelo.exampleDeclB rfl rfl rfl rfl⟩

/-! ### C1: the ordered full outer join -/

namespace Main

theorem fullJoin_key_mem (xs ys : List AssetWithValuation) (k : String) :
    k ∈ (fullJoin xs ys).map JoinResult.key ↔
      k ∈ xs.map AssetWithValuation.isin ∨ k ∈ ys.map AssetWithValuation.isin := by
  induction xs, ys using fullJoin.induct with
  | case1 => simp [fullJoin]
  | case2 r rs ih =>
    simp only [fullJoin, List.map_cons, List.mem_cons, List.map_nil,
      List.not_mem_nil, JoinResult.key] at ih ⊢
    tauto
  | case3 l ls ih =>
    simp only [fullJoin, List.map_cons, List.mem_cons, List.map_nil,
      List.not_mem_nil, JoinResult.key] at ih ⊢
    tauto
  | case4 l ls r rs h ih =>
    simp only [fullJoin, if_pos h, List.map_cons, List.mem_cons, JoinResult.key] at ih ⊢
    tauto
  | case5 l ls r rs h1 h2 ih =>
    simp only [fullJoin, if_neg h1, if_pos h2, List.map_cons, List.mem_cons,
      JoinResult.key] at ih ⊢
    rw [h2]
    tauto
  | case6 l ls r rs h1 h2 ih =>
    simp only [fullJoin, if_neg h1, if_neg h2, List.map_cons, List.mem_cons,
      JoinResult.key] at ih ⊢
    tauto

theorem fullJoin_key_lt (xs ys : List AssetWithValuation) (b : String)
    (hx : ∀ x ∈ xs, b < x.isin) (hy : ∀ y ∈ ys, b < y.isin) :
    ∀ j ∈ fullJoin xs ys, b < j.key := by
  intro j hj
  have hmem : j.key ∈ (fullJoin xs ys).map JoinResult.key :=
    List.mem_map_of_mem _ hj
  rcases (fullJoin_key_mem xs ys j.key).mp hmem with h | h
  · rcases List.mem_map.mp h with ⟨x, hx2, he⟩
    exact he ▸ hx x hx2
  · rcases List.mem_map.mp h with ⟨y, hy2, he⟩
    exact he ▸ hy y hy2

theorem fullJoin_sorted (xs ys : List AssetWithValuation)
    (hx : (xs.map AssetWithValuation.isin).Pairwise (· < ·))
    (hy : (ys.map AssetWithValuation.isin).Pairwise (· < ·)) :
    ((fullJoin xs ys).map JoinResult.key).Pairwise (· < ·) := by
  induction xs, ys using fullJoin.induct with
  | case1 => simp [fullJoin]
  | case2 r rs ih =>
    rw [List.map_cons] at hy
    rcases List.pairwise_cons.mp hy with ⟨hyr, hy2⟩
    simp only [fullJoin, List.map_cons]
    refine List.pairwise_cons.mpr ⟨?_, ih hx hy2⟩
    intro k hk
    rcases List.mem_map.mp hk with ⟨j, hj, rfl⟩
    exact fullJoin_key_lt [] rs r.isin (by simp)
      (fun y hyy => hyr y.isin (List.mem_map_of_mem _ hyy)) j hj
  | case3 l ls ih =>
    rw [List.map_cons] at hx
    rcases List.pairwise_cons.mp hx with ⟨hxl, hx2⟩
    simp only [fullJoin, List.map_cons]
    refine List.pairwise_cons.mpr ⟨?_, ih hx2 hy⟩
    intro k hk
    rcases List.mem_map.mp hk with ⟨j, hj, rfl⟩
    exact fullJoin_key_lt ls [] l.isin
      (fun x hxx => hxl x.isin (List.mem_map_of_mem _ hxx)) (by simp) j hj
  | case4 l ls r rs h ih =>
    rw [List.map_cons] at hx
    rcases List.pairwise_cons.mp hx with ⟨hxl, hx2⟩
    simp only [fullJoin, if_pos h, List.map_cons]
    refine List.pairwise_cons.mpr ⟨?_, ih hx2 hy⟩
    intro k hk
    rcases List.mem_map.mp hk with ⟨j, hj, rfl⟩
    refine fullJoin_key_lt ls (r :: rs) l.isin
      (fun x hxx => hxl x.isin (List.mem_map_of_mem _ hxx)) ?_ j hj
    intro y hyy
    rcases List.mem_cons.mp hyy with rfl | hyy
    · exact h
    · rw [List.map_cons] at hy
      exact lt_trans h ((List.pairwise_cons.mp hy).1 y.isin (List.mem_map_of_mem _ hyy))
  | case5 l ls r rs h1 h2 ih =>
    rw [List.map_cons] at hx hy
    rcases List.pairwise_cons.mp hx with ⟨hxl, hx2⟩
    rcases List.pairwise_cons.mp hy with ⟨hyr, hy2⟩
    simp only [fullJoin, if_neg h1, if_pos h2, List.map_cons]
    refine List.pairwise_cons.mpr ⟨?_, ih hx2 hy2⟩
    intro k hk
    rcases List.mem_map.mp hk with ⟨j, hj, rfl⟩
    refine fullJoin_key_lt ls rs l.isin
      (fun x hxx => hxl x.isin (List.mem_map_of_mem _ hxx)) ?_ j hj
    intro y hyy
    rw [h2]
    exact hyr y.isin (List.mem_map_of_mem _ hyy)
  | case6 l ls r rs h1 h2 ih =>
    have hrl : r.isin < l.isin :=
      lt_of_le_of_ne (not_lt.mp h1) (fun he => h2 he.symm)
    rw [List.map_cons] at hy
    rcases List.pairwise_cons.mp hy with ⟨hyr, hy2⟩
    simp only [fullJoin, if_neg h1, if_neg h2, List.map_cons]
    refine List.pairwise_cons.mpr ⟨?_, ih hx hy2⟩
    intro k hk
    rcases List.mem_map.mp hk with ⟨j, hj, rfl⟩
    refine fullJoin_key_lt (l :: ls) rs r.isin ?_
      (fun y hyy => hyr y.isin (List.mem_map_of_mem _ hyy)) j hj
    intro x hxx
    rcases List.mem_cons.mp hxx with rfl | hxx
    · exact hrl
    · rw [List.map_cons] at hx
      exact lt_trans hrl ((List.pairwise_cons.mp hx).1 x.isin (List.mem_map_of_mem _ hxx))

end Main

namespace Main

theorem fullJoin_classified (xs ys : List AssetWithValuation)
    (hx : (xs.map AssetWithValuation.isin).Pairwise (· < ·))
    (hy : (ys.map AssetWithValuation.isin).Pairwise (· < ·)) :
    ∀ j ∈ fullJoin xs ys, PortfolioChange.classifiedCorrectly xs ys (classify j) := by
  induction xs, ys using fullJoin.induct with
  | case1 =>
    intro j hj
    simp [fullJoin] at hj
  | case2 r rs ih =>
    rw [List.map_cons] at hy
    rcases List.pairwise_cons.mp hy with ⟨hyr, hy2⟩
    intro j hj
    simp only [fullJoin] at hj
    rcases List.mem_cons.mp hj with rfl | hj
    · exact ⟨List.mem_cons_self r rs, by simp⟩
    · have hthis := ih hx hy2 j hj
      cases hc : classify j with
      | NewAcquisition a =>
        rw [hc] at hthis
        exact absurd hthis.1 (List.not_mem_nil a)
      | Changed n o =>
        rw [hc] at hthis
        exact absurd hthis.1 (List.not_mem_nil n)
      | Sold o =>
        rw [hc] at hthis
        exact ⟨List.mem_cons_of_mem r hthis.1, hthis.2⟩
  | case3 l ls ih =>
    rw [List.map_cons] at hx
    rcases List.pairwise_cons.mp hx with ⟨hxl, hx2⟩
    intro j hj
    simp only [fullJoin] at hj
    rcases List.mem_cons.mp hj with rfl | hj
    · exact ⟨List.mem_cons_self l ls, by simp⟩
    · have hthis := ih hx2 hy j hj
      cases hc : classify j with
      | NewAcquisition a =>
        rw [hc] at hthis
        exact ⟨List.mem_cons_of_mem l hthis.1, hthis.2⟩
      | Changed n o =>
        rw [hc] at hthis
        exact absurd hthis.2.1 (List.not_mem_nil o)
      | Sold o =>
        rw [hc] at hthis
        exact absurd hthis.1 (List.not_mem_nil o)
  | case4 l ls r rs h ih =>
    rw [List.map_cons] at hx
    rcases List.pairwise_cons.mp hx with ⟨hxl, hx2⟩
    have hyr : ∀ y ∈ rs, r.isin < y.isin := by
      rw [List.map_cons] at hy
      intro y hyy
      exact (List.pairwise_cons.mp hy).1 y.isin (List.mem_map_of_mem _ hyy)
    intro j hj
    simp only [fullJoin, if_pos h] at hj
    rcases List.mem_cons.mp hj with rfl | hj
    · refine ⟨List.mem_cons_self l ls, ?_⟩
      intro hmem
      rcases List.mem_map.mp hmem with ⟨y, hy3, he⟩
      rcases List.mem_cons.mp hy3 with rfl | hy3
      · rw [he] at h
        exact lt_irrefl _ h
      · have := hyr y hy3
        rw [he] at this
        exact lt_irrefl _ (lt_trans h this)
    · have hthis := ih hx2 hy j hj
      cases hc : classify j with
      | NewAcquisition a =>
        rw [hc] at hthis
        exact ⟨List.mem_cons_of_mem l hthis.1, hthis.2⟩
      | Changed n o =>
        rw [hc] at hthis
        exact ⟨List.mem_cons_of_mem l hthis.1, hthis.2.1, hthis.2.2⟩
      | Sold o =>
        rw [hc] at hthis
        refine ⟨hthis.1, ?_⟩
        have hro : r.isin ≤ o.isin := by
          rcases List.mem_cons.mp hthis.1 with rfl | hm
          · exact le_refl _
          · exact le_of_lt (hyr o hm)
        intro hmem
        rcases List.mem_map.mp hmem with ⟨x, hx3, he⟩
        rcases List.mem_cons.mp hx3 with rfl | hx3
        · rw [← he] at hro
          exact absurd h (not_lt.mpr hro)
        · exact hthis.2 (he ▸ List.mem_map_of_mem _ hx3)
  | case5 l ls r rs h1 h2 ih =>
    rw [List.map_cons] at hx hy
    rcases List.pairwise_cons.mp hx with ⟨hxl, hx2⟩
    rcases List.pairwise_cons.mp hy with ⟨hyr, hy2⟩
    intro j hj
    simp only [fullJoin, if_neg h1, if_pos h2] at hj
    rcases List.mem_cons.mp hj with rfl | hj
    · exact ⟨List.mem_cons_self l ls, List.mem_cons_self r rs, h2⟩
    · have hthis := ih hx2 hy2 j hj
      cases hc : classify j with
      | NewAcquisition a =>
        rw [hc] at hthis
        refine ⟨List.mem_cons_of_mem l hthis.1, ?_⟩
        intro hmem
        rcases List.mem_map.mp hmem with ⟨y, hy3, he⟩
        rcases List.mem_cons.mp hy3 with rfl | hy3
        · have hla := hxl a.isin (List.mem_map_of_mem _ hthis.1)
          rw [← he, ← h2] at hla
          exact lt_irrefl _ hla
        · exact hthis.2 (he ▸ List.mem_map_of_mem _ hy3)
      | Changed n o =>
        rw [hc] at hthis
        exact ⟨List.mem_cons_of_mem l hthis.1,
          List.mem_cons_of_mem r hthis.2.1, hthis.2.2⟩
      | Sold o =>
        rw [hc] at hthis
        refine ⟨List.mem_cons_of_mem r hthis.1, ?_⟩
        intro hmem
        rcases List.mem_map.mp hmem with ⟨x, hx3, he⟩
        rcases List.mem_cons.mp hx3 with rfl | hx3
        · have hro := hyr o.isin (List.mem_map_of_mem _ hthis.1)
          rw [← he, h2] at hro
          exact lt_irrefl _ hro
        · exact hthis.2 (he ▸ List.mem_map_of_mem _ hx3)
  | case6 l ls r rs h1 h2 ih =>
    have hrl : r.isin < l.isin :=
      lt_of_le_of_ne (not_lt.mp h1) (fun he => h2 he.symm)
    rw [List.map_cons] at hy
    rcases List.pairwise_cons.mp hy with ⟨hyr, hy2⟩
    have hxl : ∀ x ∈ ls, l.isin < x.isin := by
      rw [List.map_cons] at hx
      intro x hxx
      exact (List.pairwise_cons.mp hx).1 x.isin (List.mem_map_of_mem _ hxx)
    intro j hj
    simp only [fullJoin, if_neg h1, if_neg h2] at hj
    rcases List.mem_cons.mp hj with rfl | hj
    · refine ⟨List.mem_cons_self r rs, ?_⟩
      intro hmem
      rcases List.mem_map.mp hmem with ⟨x, hx3, he⟩
      rcases List.mem_cons.mp hx3 with rfl | hx3
      · rw [he] at hrl
        exact lt_irrefl _ hrl
      · have := hxl x hx3
        rw [he] at this
        exact lt_irrefl _ (lt_trans hrl this)
    · have hthis := ih hx hy2 j hj
      cases hc : classify j with
      | NewAcquisition a =>
        rw [hc] at hthis
        refine ⟨hthis.1, ?_⟩
        have hla : l.isin ≤ a.isin := by
          rcases List.mem_cons.mp hthis.1 with rfl | hm
          · exact le_refl _
          · exact le_of_lt (hxl a hm)
        intro hmem
        rcases List.mem_map.mp hmem with ⟨y, hy3, he⟩
        rcases List.mem_cons.mp hy3 with rfl | hy3
        · rw [← he] at hla
          exact absurd hrl (not_lt.mpr hla)
        · exact hthis.2 (he ▸ List.mem_map_of_mem _ hy3)
      | Changed n o =>
        rw [hc] at hthis
        exact ⟨hthis.1, List.mem_cons_of_mem r hthis.2.1, hthis.2.2⟩
      | Sold o =>
        rw [hc] at hthis
        exact ⟨List.mem_cons_of_mem r hthis.1, hthis.2⟩

end Main

theorem changeKey_classify (j : Main.JoinResult) :
    (Main.classify j).changeKey = j.key := by
  cases j <;> rfl

/-- C1: for any two portfolios whose asset sequences are sorted by
identifier and duplicate-free (strictly increasing identifiers), the
reconciliation's ordered full-outer-join produces a classification sequence
whose identifiers are strictly increasing, whose identifier set is exactly
the union of the two inputs' identifier sets, and in which every key is
classified left-only as `NewAcquisition`, present-in-both as `Changed`, and
right-only as `Sold`. -/
theorem c1_join_classification (current previous : List Main.AssetWithValuation)
    (hc : (current.map Main.AssetWithValuation.isin).Pairwise (· < ·))
    (hp : (previous.map Main.AssetWithValuation.isin).Pairwise (· < ·)) :
    ((Main.reconcile current previous).map Main.PortfolioChange.changeKey).Pairwise
        (· < ·) ∧
    (∀ k : String,
      k ∈ (Main.reconcile current previous).map Main.PortfolioChange.changeKey ↔
        k ∈ current.map Main.AssetWithValuation.isin ∨
          k ∈ previous.map Main.AssetWithValuation.isin) ∧
    (∀ c ∈ Main.reconcile current previous,
      Main.PortfolioChange.classifiedCorrectly current previous c) := by
  have hkeys : (Main.reconcile current previous).map Main.PortfolioChange.changeKey =
      (Main.fullJoin current previous).map Main.JoinResult.key := by
    unfold Main.reconcile
    rw [List.map_map]
    exact List.map_congr_left fun j _ => changeKey_classify j
  refine ⟨?_, ?_, ?_⟩
  · rw [hkeys]
    exact Main.fullJoin_sorted current previous hc hp
  · intro k
    rw [hkeys]
    exact Main.fullJoin_key_mem current previous k
  · intro c hcm
    unfold Main.reconcile at hcm
    rcases List.mem_map.mp hcm with ⟨j, hj, rfl⟩
    exact Main.fullJoin_classified current previous hc hp j hj

/-- Witness for C1 on a three-asset instance exercising all three
classifications. -/
theorem c1_witness :
    ((([Main.exampleAsset "AA11" 165 15,
        Main.exampleAsset "CC33" 10 1]).map Main.AssetWithValuation.isin).Pairwise
        (· < ·) ∧
      (([Main.exampleAsset "BB22" 100 10,
        Main.exampleAsset "CC33" 8 1]).map Main.AssetWithValuation.isin).Pairwise
        (· < ·)) ∧
    ((Main.reconcile
        [Main.exampleAsset "AA11" 165 15, Main.exampleAsset "CC33" 10 1]
        [Main.exampleAsset "BB22" 100 10, Main.exampleAsset "CC33" 8 1]).map
          Main.PortfolioChange.changeKey).Pairwise (· < ·) ∧
    (∀ c ∈ Main.reconcile
        [Main.exampleAsset "AA11" 165 15, Main.exampleAsset "CC33" 10 1]
        [Main.exampleAsset "BB22" 100 10, Main.exampleAsset "CC33" 8 1],
      Main.PortfolioChange.classifiedCorrectly
        [Main.exampleAsset "AA11" 165 15, Main.exampleAsset "CC33" 10 1]
        [Main.exampleAsset "BB22" 100 10, Main.exampleAsset "CC33" 8 1] c) := by
  have hc : (([Main.exampleAsset "AA11" 165 15,
      Main.exampleAsset "CC33" 10 1]).map Main.AssetWithValuation.isin).Pairwise
      (· < ·) := by
    simp [List.pairwise_cons, String.lt_iff_toList_lt]
    decide
  have hp : (([Main.exampleAsset "BB22" 100 10,
      Main.exampleAsset "CC33" 8 1]).map Main.AssetWithValuation.isin).Pairwise
      (· < ·) := by
    simp [List.pairwise_cons, String.lt_iff_toList_lt]
    decide
  have h := c1_join_classification
    [Main.exampleAsset "AA11" 165 15, Main.exampleAsset "CC33" 10 1]
    [Main.exampleAsset "BB22" 100 10, Main.exampleAsset "CC33" 8 1] hc hp
  exact ⟨⟨hc, hp⟩, h.1, h.2.2⟩

/-! ### C9: the two-byte identifier slice -/

theorem utf8Size_pos (c : Char) : 0 < c.utf8Size := by
  show 0 < (if c.val ≤ UInt32.ofNatCore 0x7F (by decide) then 1
    else if c.val ≤ UInt32.ofNatCore 0x7FF (by decide) then 2
    else if c.val ≤ UInt32.ofNatCore 0xFFFF (by decide) then 3 else 4)
  split
  · omega
  split
  · omega
  split
  · omega
  · omega

theorem utf8Take_none_of_short :
    ∀ (cs : List Char) (n : ℕ), 0 < n → (cs.map Char.utf8Size).sum < n →
      utf8Take n cs = none := by
  intro cs
  induction cs with
  | nil =>
    intro n hn hs
    cases n with
    | zero => omega
    | succ n => rfl
  | cons c cs ih =>
    intro n hn hs
    cases n with
    | zero => omega
    | succ n =>
      simp only [List.map_cons, List.sum_cons] at hs
      show utf8Take (n + 1) (c :: cs) = none
      unfold utf8Take
      by_cases h : c.utf8Size ≤ n + 1
      · rw [if_pos h]
        have h1 : 0 < c.utf8Size := utf8Size_pos c
        rw [ih (n + 1 - c.utf8Size) (by omega) (by omega)]
        rfl
      · rw [if_neg h]

/-- C9: `modelo_720_registro` takes the byte slice `isin[..2]` as the
entity country code.  The slice panics (`none`) whenever the identifier is
shorter than two bytes; when the two-byte prefix exists the builder
succeeds and stamps it as the country code; and under that precondition on
every asset of both (sorted) portfolios, every asset referenced by a
classification of the reconciliation satisfies it, so the slice never
panics. -/
theorem c9_isin_slice_safety :
    (∀ s : String, strByteLen s < 2 → utf8Take 2 s.data = none) ∧
    (∀ (a : Main.AssetWithValuation) (ejercicio : ℤ) (nif name : String),
      utf8Take 2 a.isin.data = none →
        a.modelo720Registro ejercicio nif name = none) ∧
    (∀ (a : Main.AssetWithValuation) (ejercicio : ℤ) (nif name : String)
        (cs : List Char), utf8Take 2 a.isin.data = some cs →
      ∃ r, a.modelo720Registro ejercicio nif name = some r ∧
        r.codigo_pais_entidad = some (String.mk cs)) ∧
    (∀ current previous : List Main.AssetWithValuation,
      (current.map Main.AssetWithValuation.isin).Pairwise (· < ·) →
      (previous.map Main.AssetWithValuation.isin).Pairwise (· < ·) →
      (∀ a ∈ current ++ previous, (utf8Take 2 a.isin.data).isSome) →
      ∀ c ∈ Main.reconcile current previous,
        ∀ a ∈ c.changeAssets, (utf8Take 2 a.isin.data).isSome) := by
  refine ⟨?_, ?_, ?_, ?_⟩
  · intro s hs
    exact utf8Take_none_of_short s.data 2 (by omega) hs
  · intro a ejercicio nif name h
    unfold Main.AssetWithValuation.modelo720Registro
    rw [h]
    rfl
  · intro a ejercicio nif name cs h
    unfold Main.AssetWithValuation.modelo720Registro
    rw [h]
    exact ⟨_, rfl, rfl⟩
  · intro current previous hc hp hall c hcm a ha
    unfold Main.reconcile at hcm
    rcases List.mem_map.mp hcm with ⟨j, hj, rfl⟩
    have hclass := Main.fullJoin_classified current previous hc hp j hj
    cases j with
    | OuterLeft l =>
      have h1 : l ∈ current := hclass.1
      simp only [Main.classify, Main.PortfolioChange.changeAssets,
        List.mem_singleton] at ha
      subst ha
      exact hall a (List.mem_append.mpr (Or.inl h1))
    | Inner l r =>
      have h1 : l ∈ current := hclass.1
      have h2 : r ∈ previous := hclass.2.1
      simp only [Main.classify, Main.PortfolioChange.changeAssets,
        List.mem_cons, List.mem_singleton, List.not_mem_nil, or_false] at ha
      rcases ha with rfl | rfl
      · exact hall a (List.mem_append.mpr (Or.inl h1))
      · exact hall a (List.mem_append.mpr (Or.inr h2))
    | OuterRight r =>
      have h1 : r ∈ previous := hclass.1
      simp only [Main.classify, Main.PortfolioChange.changeAssets,
        List.mem_singleton] at ha
      subst ha
      exact hall a (List.mem_append.mpr (Or.inr h1))

/-- Witness for C9: a one-byte identifier panics the slice; the two-byte
prefix of `"AA11"` becomes the country code; and on a concrete sorted
reconciliation instance with sliceable identifiers every referenced asset
is sliceable. -/
theorem c9_witness :
    (strByteLen "A" < 2 ∧ utf8Take 2 "A".data = none) ∧
    (utf8Take 2 "AA11".data = some ['A', 'A'] ∧
      ∃ r, (Main.exampleAsset "AA11" 165 15).modelo720Registro 2023 "X0000000" "DOE JOHN" =
          some r ∧ r.codigo_pais_entidad = some (String.mk ['A', 'A'])) ∧
    (∀ c ∈ Main.reconcile [Main.exampleAsset "AA11" 165 15]
        [Main.exampleAsset "BB22" 100 10],
      ∀ a ∈ c.changeAssets, (utf8Take 2 a.isin.data).isSome) := by
  have h1 : strByteLen "A" < 2 := by decide
  have h2 : utf8Take 2 "AA11".data = some ['A', 'A'] := by decide
  refine ⟨⟨h1, c9_isin_slice_safety.1 "A" h1⟩,
    ⟨h2, c9_isin_slice_safety.2.2.1 (Main.exampleAsset "AA11" 165 15)
      2023 "X0000000" "DOE JOHN" ['A', 'A'] h2⟩,
    c9_isin_slice_safety.2.2.2 [Main.exampleAsset "AA11" 165 15]
      [Main.exampleAsset "BB22" 100 10] (by simp) (by simp) ?_⟩
  intro a ha
  rcases List.mem_append.mp ha with ha | ha <;>
    rcases List.mem_singleton.mp ha with rfl <;> decide

/-! ### C2: expansion of a grown position -/

/-- C2 (amended): for every `Changed` classification whose share difference
is strictly positive and whose new share count is nonzero (with sliceable
identifiers), provided the old share count in hundredths and both computed
cent amounts are `i64`-representable, the expansion emits exactly two
records in order: first origin `'M'` with the old share count and
valuation1 the cent value `round(old.shares * (new.valuation / new.shares)
* 100)`, then origin `'A'` with the share delta and valuation1
`round(diff * price * 100)`.  Beyond the `i64` range `to_i64()` is `None`
and the record's valuation1 is silently left unset — see the
counterexample. -/
theorem c2_changed_grew_amended (ejercicio : ℤ) (nif name : String)
    (nw old : Main.AssetWithValuation)
    (hdiff : 0 < nw.shares - old.shares)
    (hsh : nw.shares ≠ 0)
    (hio : (utf8Take 2 old.isin.data).isSome)
    (hin : (utf8Take 2 nw.isin.data).isSome)
    (hdead : |roundHalfAwayFromZero (old.shares * 100)| ≤ i64Max)
    (hv1 : |roundHalfAwayFromZero
      (old.shares * (nw.valuation / nw.shares) * 100)| ≤ i64Max)
    (hv2 : |roundHalfAwayFromZero
      ((nw.shares - old.shares) * (nw.valuation / nw.shares) * 100)| ≤ i64Max) :
    ∃ rOld rNew,
      old.modelo720Registro ejercicio nif name = some rOld ∧
      nw.modelo720Registro ejercicio nif name = some rNew ∧
      Main.expandChange ejercicio nif name (.Changed nw old) =
        some [{ rOld with
            origen_bien_derecho := some 'M'
            numero_valores := some old.shares
            valoracion1 := some (roundHalfAwayFromZero
              (old.shares * (nw.valuation / nw.shares) * 100)) },
          { rNew with
            origen_bien_derecho := some 'A'
            numero_valores := some (nw.shares - old.shares)
            valoracion1 := some (roundHalfAwayFromZero
              ((nw.shares - old.shares) * (nw.valuation / nw.shares) * 100)) }] := by
  rcases Option.isSome_iff_exists.mp hio with ⟨co, hco⟩
  rcases Option.isSome_iff_exists.mp hin with ⟨cn, hcn⟩
  have hpr : nw.pricePerShare = some (nw.valuation / nw.shares) := by
    unfold Main.AssetWithValuation.pricePerShare
    rw [if_neg hsh]
  have hdead2 : old.sharesAsCents = some (roundHalfAwayFromZero (old.shares * 100)) := by
    unfold Main.AssetWithValuation.sharesAsCents
    exact Int.toI64_of_abs_le hdead
  obtain ⟨rOld, hro⟩ : ∃ r, old.modelo720Registro ejercicio nif name = some r := by
    unfold Main.AssetWithValuation.modelo720Registro
    rw [hco]
    exact ⟨_, rfl⟩
  obtain ⟨rNew, hrn⟩ : ∃ r, nw.modelo720Registro ejercicio nif name = some r := by
    unfold Main.AssetWithValuation.modelo720Registro
    rw [hcn]
    exact ⟨_, rfl⟩
  refine ⟨rOld, rNew, hro, hrn, ?_⟩
  simp only [Main.expandChange, Main.assetDifferenceShares, Option.pure_def,
    Option.bind_eq_bind]
  rw [hpr, Option.some_bind, if_pos hdiff, hro, Option.some_bind, hdead2,
    Option.some_bind, hrn, Option.some_bind, Int.toI64_of_abs_le hv1,
    Int.toI64_of_abs_le hv2]

/-- C2 counterexample: a grown position whose delta is worth `10^21` cents
(representable in `Decimal`, far beyond `i64`) satisfies the claim's
conditions, yet the Acquired record's valuation1 is `None` — `to_i64()`
out of range — not the claimed rounded cent value. -/
theorem c2_counterexample :
    (0 : ℚ) < (Main.exampleAsset "AA11" ((10 : ℚ) ^ 19) ((10 : ℚ) ^ 19)).shares -
        (Main.exampleAsset "AA11" 1 1).shares ∧
    (Main.exampleAsset "AA11" ((10 : ℚ) ^ 19) ((10 : ℚ) ^ 19)).shares ≠ 0 ∧
    (Main.expandChange 2023 "X0000000" "DOE JOHN"
        (.Changed (Main.exampleAsset "AA11" ((10 : ℚ) ^ 19) ((10 : ℚ) ^ 19))
          (Main.exampleAsset "AA11" 1 1))).map (List.map fun r => r.valoracion1) =
      some [some 100, none] ∧
    (none : Option ℤ) ≠ some (roundHalfAwayFromZero
      ((((10 : ℚ) ^ 19) - 1) * (((10 : ℚ) ^ 19) / ((10 : ℚ) ^ 19)) * 100)) := by
  have hdiff : (0 : ℚ) <
      (Main.exampleAsset "AA11" ((10 : ℚ) ^ 19) ((10 : ℚ) ^ 19)).shares -
        (Main.exampleAsset "AA11" 1 1).shares := by
    show (0 : ℚ) < (10 : ℚ) ^ 19 - 1
    norm_num
  refine ⟨hdiff, by show ((10 : ℚ) ^ 19) ≠ 0; norm_num, ?_, by simp⟩
  have hpr : (Main.exampleAsset "AA11" ((10 : ℚ) ^ 19) ((10 : ℚ) ^ 19)).pricePerShare =
      some (((10 : ℚ) ^ 19) / ((10 : ℚ) ^ 19)) := by
    unfold Main.AssetWithValuation.pricePerShare
    rw [if_neg (show (Main.exampleAsset "AA11" ((10 : ℚ) ^ 19)
      ((10 : ℚ) ^ 19)).shares ≠ 0 from by show ((10 : ℚ) ^ 19) ≠ 0; norm_num)]
    rfl
  have hdead2 : (Main.exampleAsset "AA11" 1 1).sharesAsCents = some 100 := by
    unfold Main.AssetWithValuation.sharesAsCents
    rw [show (Main.exampleAsset "AA11" 1 1).shares * 100 = ((100 : ℤ) : ℚ)
        from by show (1 : ℚ) * 100 = ((100 : ℤ) : ℚ); norm_num,
      roundHalfAwayFromZero_intCast]
    exact Int.toI64_of_abs_le (by norm_num [i64Max])
  obtain ⟨rOld, hro⟩ : ∃ r, (Main.exampleAsset "AA11" 1 1).modelo720Registro
      2023 "X0000000" "DOE JOHN" = some r := by
    unfold Main.AssetWithValuation.modelo720Registro
    rw [show utf8Take 2 (Main.exampleAsset "AA11" 1 1).isin.data =
      some ['A', 'A'] from by decide]
    exact ⟨_, rfl⟩
  obtain ⟨rNew, hrn⟩ : ∃ r, (Main.exampleAsset "AA11" ((10 : ℚ) ^ 19)
      ((10 : ℚ) ^ 19)).modelo720Registro 2023 "X0000000" "DOE JOHN" = some r := by
    unfold Main.AssetWithValuation.modelo720Registro
    rw [show utf8Take 2 (Main.exampleAsset "AA11" ((10 : ℚ) ^ 19)
      ((10 : ℚ) ^ 19)).isin.data = some ['A', 'A'] from by decide]
    exact ⟨_, rfl⟩
  have hval1 : Int.toI64 (roundHalfAwayFromZero
      ((Main.exampleAsset "AA11" 1 1).shares *
        (((10 : ℚ) ^ 19) / ((10 : ℚ) ^ 19)) * 100)) = some 100 := by
    rw [show (Main.exampleAsset "AA11" 1 1).shares *
        (((10 : ℚ) ^ 19) / ((10 : ℚ) ^ 19)) * 100 = ((100 : ℤ) : ℚ)
      from by show (1 : ℚ) * (((10 : ℚ) ^ 19) / ((10 : ℚ) ^ 19)) * 100 = ((100 : ℤ) : ℚ)
              norm_num,
      roundHalfAwayFromZero_intCast]
    exact Int.toI64_of_abs_le (by norm_num [i64Max])
  have hval2 : Int.toI64 (roundHalfAwayFromZero
      (((Main.exampleAsset "AA11" ((10 : ℚ) ^ 19) ((10 : ℚ) ^ 19)).shares -
          (Main.exampleAsset "AA11" 1 1).shares) *
        (((10 : ℚ) ^ 19) / ((10 : ℚ) ^ 19)) * 100)) = none := by
    rw [show ((Main.exampleAsset "AA11" ((10 : ℚ) ^ 19) ((10 : ℚ) ^ 19)).shares -
          (Main.exampleAsset "AA11" 1 1).shares) *
        (((10 : ℚ) ^ 19) / ((10 : ℚ) ^ 19)) * 100 = ((10 ^ 21 - 100 : ℤ) : ℚ)
      from by show (((10 : ℚ) ^ 19) - 1) * (((10 : ℚ) ^ 19) / ((10 : ℚ) ^ 19)) * 100 =
                ((10 ^ 21 - 100 : ℤ) : ℚ)
              norm_num,
      roundHalfAwayFromZero_intCast]
    exact Int.toI64_none_of_gt (by norm_num [i64Max])
  simp only [Main.expandChange, Main.assetDifferenceShares, Option.pure_def,
    Option.bind_eq_bind]
  rw [hpr, Option.some_bind, if_pos hdiff, hro, Option.some_bind, hdead2,
    Option.some_bind, hrn, Option.some_bind, hval1, hval2]
  rfl

/-- Witness for C2 realising the spec's Example 3: current shares 15 and
valuation 165 against previous shares 10 and valuation 100 yields price 11,
a Maintained record with shares 10 and valuation1 11000 cents and an
Acquired record with shares 5 and valuation1 5500 cents. -/
theorem c2_witness :
    ((0 : ℚ) < (Main.exampleAsset "AA11" 165 15).shares -
        (Main.exampleAsset "AA11" 100 10).shares ∧
      (Main.exampleAsset "AA11" 165 15).shares ≠ 0 ∧
      |roundHalfAwayFromZero ((Main.exampleAsset "AA11" 100 10).shares * 100)| ≤
        i64Max ∧
      |roundHalfAwayFromZero ((Main.exampleAsset "AA11" 100 10).shares *
        ((Main.exampleAsset "AA11" 165 15).valuation /
          (Main.exampleAsset "AA11" 165 15).shares) * 100)| ≤ i64Max ∧
      |roundHalfAwayFromZero (((Main.exampleAsset "AA11" 165 15).shares -
          (Main.exampleAsset "AA11" 100 10).shares) *
        ((Main.exampleAsset "AA11" 165 15).valuation /
          (Main.exampleAsset "AA11" 165 15).shares) * 100)| ≤ i64Max) ∧
    (∃ rOld rNew,
      (Main.exampleAsset "AA11" 100 10).modelo720Registro 2023 "X0000000" "DOE JOHN" =
        some rOld ∧
      (Main.exampleAsset "AA11" 165 15).modelo720Registro 2023 "X0000000" "DOE JOHN" =
        some rNew ∧
      Main.expandChange 2023 "X0000000" "DOE JOHN"
          (.Changed (Main.exampleAsset "AA11" 165 15) (Main.exampleAsset "AA11" 100 10)) =
        some [{ rOld with
            origen_bien_derecho := some 'M'
            numero_valores := some (Main.exampleAsset "AA11" 100 10).shares
            valoracion1 := some (roundHalfAwayFromZero
              ((Main.exampleAsset "AA11" 100 10).shares *
                ((Main.exampleAsset "AA11" 165 15).valuation /
                  (Main.exampleAsset "AA11" 165 15).shares) * 100)) },
          { rNew with
            origen_bien_derecho := some 'A'
            numero_valores := some ((Main.exampleAsset "AA11" 165 15).shares -
              (Main.exampleAsset "AA11" 100 10).shares)
            valoracion1 := some (roundHalfAwayFromZero
              (((Main.exampleAsset "AA11" 165 15).shares -
                  (Main.exampleAsset "AA11" 100 10).shares) *
                ((Main.exampleAsset "AA11" 165 15).valuation /
                  (Main.exampleAsset "AA11" 165 15).shares) * 100)) }]) ∧
    ((Main.exampleAsset "AA11" 165 15).shares -
        (Main.exampleAsset "AA11" 100 10).shares = 5 ∧
      roundHalfAwayFromZero ((Main.exampleAsset "AA11" 100 10).shares *
        ((Main.exampleAsset "AA11" 165 15).valuation /
          (Main.exampleAsset "AA11" 165 15).shares) * 100) = 11000 ∧
      roundHalfAwayFromZero (((Main.exampleAsset "AA11" 165 15).shares -
          (Main.exampleAsset "AA11" 100 10).shares) *
        ((Main.exampleAsset "AA11" 165 15).valuation /
          (Main.exampleAsset "AA11" 165 15).shares) * 100) = 5500) := by
  have hdiff : (0 : ℚ) < (Main.exampleAsset "AA11" 165 15).shares -
      (Main.exampleAsset "AA11" 100 10).shares := by
    show (0 : ℚ) < 15 - 10
    norm_num
  have hsh : (Main.exampleAsset "AA11" 165 15).shares ≠ 0 := by
    show (15 : ℚ) ≠ 0
    norm_num
  have hdead : |roundHalfAwayFromZero ((Main.exampleAsset "AA11" 100 10).shares *
      100)| ≤ i64Max := by
    show |roundHalfAwayFromZero ((10 : ℚ) * 100)| ≤ i64Max
    rw [show (10 : ℚ) * 100 = ((1000 : ℤ) : ℚ) by norm_num,
      roundHalfAwayFromZero_intCast]
    norm_num [i64Max]
  have hv1 : |roundHalfAwayFromZero ((Main.exampleAsset "AA11" 100 10).shares *
      ((Main.exampleAsset "AA11" 165 15).valuation /
        (Main.exampleAsset "AA11" 165 15).shares) * 100)| ≤ i64Max := by
    show |roundHalfAwayFromZero ((10 : ℚ) * ((165 : ℚ) / 15) * 100)| ≤ i64Max
    rw [show (10 : ℚ) * ((165 : ℚ) / 15) * 100 = ((11000 : ℤ) : ℚ) by norm_num,
      roundHalfAwayFromZero_intCast]
    norm_num [i64Max]
  have hv2 : |roundHalfAwayFromZero (((Main.exampleAsset "AA11" 165 15).shares -
      (Main.exampleAsset "AA11" 100 10).shares) *
      ((Main.exampleAsset "AA11" 165 15).valuation /
        (Main.exampleAsset "AA11" 165 15).shares) * 100)| ≤ i64Max := by
    show |roundHalfAwayFromZero (((15 : ℚ) - 10) * ((165 : ℚ) / 15) * 100)| ≤ i64Max
    rw [show ((15 : ℚ) - 10) * ((165 : ℚ) / 15) * 100 = ((5500 : ℤ) : ℚ) by norm_num,
      roundHalfAwayFromZero_intCast]
    norm_num [i64Max]
  refine ⟨⟨hdiff, hsh, hdead, hv1, hv2⟩,
    c2_changed_grew_amended 2023 "X0000000" "DOE JOHN"
      (Main.exampleAsset "AA11" 165 15) (Main.exampleAsset "AA11" 100 10)
      hdiff hsh (by decide) (by decide) hdead hv1 hv2, ?_, ?_, ?_⟩
  · show (15 : ℚ) - 10 = 5
    norm_num
  · show roundHalfAwayFromZero ((10 : ℚ) * ((165 : ℚ) / 15) * 100) = 11000
    rw [show (10 : ℚ) * ((165 : ℚ) / 15) * 100 = ((11000 : ℤ) : ℚ) by norm_num]
    exact roundHalfAwayFromZero_intCast 11000
  · show roundHalfAwayFromZero (((15 : ℚ) - 10) * ((165 : ℚ) / 15) * 100) = 5500
    rw [show ((15 : ℚ) - 10) * ((165 : ℚ) / 15) * 100 = ((5500 : ℤ) : ℚ) by norm_num]
    exact roundHalfAwayFromZero_intCast 5500

/-! ### C7: expansion of an unchanged share count -/

/-- C7 (amended): for every `Changed` classification with equal and nonzero
share counts (a zero count panics in `price_per_share`, which runs before
the branch split — see the counterexample) and a sliceable identifier, the
expansion emits exactly one record: origin `'M'` over the new asset's
baseline record, whose valuation1 is left at the baseline's unset value
(`none`) rather than set to the new asset's valuation. -/
theorem c7_changed_same_amended (ejercicio : ℤ) (nif name : String)
    (nw old : Main.AssetWithValuation)
    (heq : nw.shares = old.shares)
    (hsh : nw.shares ≠ 0)
    (hin : (utf8Take 2 nw.isin.data).isSome) :
    ∃ r, nw.modelo720Registro ejercicio nif name = some r ∧
      Main.expandChange ejercicio nif name (.Changed nw old) =
        some [{ r with origen_bien_derecho := some 'M' }] ∧
      r.valoracion1 = none ∧
      ({ r with origen_bien_derecho := some 'M' } :
        Main.Registro2Modelo720).valoracion1 = none := by
  rcases Option.isSome_iff_exists.mp hin with ⟨cn, hcn⟩
  have hpr : nw.pricePerShare = some (nw.valuation / nw.shares) := by
    unfold Main.AssetWithValuation.pricePerShare
    rw [if_neg hsh]
  obtain ⟨r, hr, hval⟩ : ∃ r, nw.modelo720Registro ejercicio nif name = some r ∧
      r.valoracion1 = none := by
    unfold Main.AssetWithValuation.modelo720Registro
    rw [hcn]
    exact ⟨_, rfl, rfl⟩
  refine ⟨r, hr, ?_, hval, hval⟩
  have hd0 : nw.shares - old.shares = 0 := by rw [heq]; ring
  simp only [Main.expandChange, Main.assetDifferenceShares, Option.pure_def,
    Option.bind_eq_bind]
  rw [hpr, Option.some_bind, if_neg (by rw [hd0]; exact lt_irrefl 0), if_pos hd0,
    hr, Option.some_bind]

/-- C7 counterexample: a `Changed` pair with equal share counts of zero
panics in `price_per_share` (Decimal division by zero) before any record is
emitted, so the claim that one Maintained record is always emitted is false
as stated. -/
theorem c7_counterexample :
    (Main.exampleAsset "AA11" 0 0).shares = (Main.exampleAsset "AA11" 0 0).shares ∧
    Main.expandChange 2023 "X0000000" "DOE JOHN"
      (.Changed (Main.exampleAsset "AA11" 0 0) (Main.exampleAsset "AA11" 0 0)) = none := by
  refine ⟨rfl, ?_⟩
  have hpr : (Main.exampleAsset "AA11" 0 0).pricePerShare = none := by
    unfold Main.AssetWithValuation.pricePerShare
    rw [if_pos (show (Main.exampleAsset "AA11" 0 0).shares = 0 from rfl)]
  simp only [Main.expandChange, Main.assetDifferenceShares, Option.pure_def,
    Option.bind_eq_bind]
  rw [hpr, Option.none_bind]

/-- Witness for C7's amended theorem realising the spec's Example 2:
current shares 10 and valuation 110 against previous shares 10 and
valuation 100 yields one Maintained record with unset valuation1. -/
theorem c7_witness :
    ((Main.exampleAsset "AA11" 110 10).shares =
        (Main.exampleAsset "AA11" 100 10).shares ∧
      (Main.exampleAsset "AA11" 110 10).shares ≠ 0) ∧
    (∃ r, (Main.exampleAsset "AA11" 110 10).modelo720Registro 2023 "X0000000" "DOE JOHN" =
        some r ∧
      Main.expandChange 2023 "X0000000" "DOE JOHN"
          (.Changed (Main.exampleAsset "AA11" 110 10) (Main.exampleAsset "AA11" 100 10)) =
        some [{ r with origen_bien_derecho := some 'M' }] ∧
      r.valoracion1 = none ∧
      ({ r with origen_bien_derecho := some 'M' } :
        Main.Registro2Modelo720).valoracion1 = none) := by
  have heq : (Main.exampleAsset "AA11" 110 10).shares =
      (Main.exampleAsset "AA11" 100 10).shares := rfl
  have hsh : (Main.exampleAsset "AA11" 110 10).shares ≠ 0 := by
    show (10 : ℚ) ≠ 0
    norm_num
  exact ⟨⟨heq, hsh⟩, c7_changed_same_amended 2023 "X0000000" "DOE JOHN"
    (Main.exampleAsset "AA11" 110 10) (Main.exampleAsset "AA11" 100 10)
    heq hsh (by decide)⟩
